import Mathlib

/-!
# Verification development for `agent/api/types.go`

A shallow embedding of the task / container data model of the ECS agent
(`package api`) together with its three `String` methods and the JSON layout
that `encoding/json` derives from the struct declarations.

Conventions of the embedding

* A Go pointer `*T` is an `Option T` (`none` is the nil pointer).
* A Go slice `[]T` is a `Slice T = Option (List T)` (`none` is the nil slice,
  `some []` an allocated slice of length zero).
* A Go map `map[string]string` is an `Option` of an association list.
* A pointer of the name index of a task that is also an entry of its
  `Containers` is kept as the position of that entry (`ContainerRef`).
* A Go `string` is a sequence of bytes. It is kept as a `String` with one
  character per byte (code points 0 to 255), so that text outside ASCII is
  written by its UTF-8 bytes: `"\xe2\x84\xaa"` is the one rune U+212A.
* A method that may panic returns `Except Fault _`.
* `TaskStatus` and `ContainerStatus` are `int32` in the source; no arithmetic
  is performed on them, so they are embedded as `Int`.
-/

namespace api

/-! ## Status constants (types.go, lines 23-46) -/

/-- Go: `type TaskStatus int32`. -/
abbrev TaskStatus := Int

/-- Go: `type ContainerStatus int32`. -/
abbrev ContainerStatus := Int

/-- The value of `iota` for the constant `name` of a const block: the index of
its ConstSpec in the block, in declaration order (blank lines and comments do
not count). -/
def iotaOf (block : List String) (name : String) : Int :=
  (block.indexOf name : Nat)

/-- The first const block of types.go, in source order. -/
def taskStatusBlock : List String :=
  ["TaskStatusNone", "TaskStatusUnknown", "TaskPulled", "TaskCreated",
   "TaskRunning", "TaskStopped", "TaskDead"]

/-- The second const block of types.go, in source order. -/
def containerStatusBlock : List String :=
  ["ContainerStatusNone", "ContainerStatusUnknown", "ContainerPulled",
   "ContainerCreated", "ContainerRunning", "ContainerStopped", "ContainerDead",
   "ContainerZombie"]

def TaskStatusNone : TaskStatus := iotaOf taskStatusBlock "TaskStatusNone"
def TaskStatusUnknown : TaskStatus := iotaOf taskStatusBlock "TaskStatusUnknown"
def TaskPulled : TaskStatus := iotaOf taskStatusBlock "TaskPulled"
def TaskCreated : TaskStatus := iotaOf taskStatusBlock "TaskCreated"
def TaskRunning : TaskStatus := iotaOf taskStatusBlock "TaskRunning"
def TaskStopped : TaskStatus := iotaOf taskStatusBlock "TaskStopped"
def TaskDead : TaskStatus := iotaOf taskStatusBlock "TaskDead"

def ContainerStatusNone : ContainerStatus := iotaOf containerStatusBlock "ContainerStatusNone"
def ContainerStatusUnknown : ContainerStatus := iotaOf containerStatusBlock "ContainerStatusUnknown"
def ContainerPulled : ContainerStatus := iotaOf containerStatusBlock "ContainerPulled"
def ContainerCreated : ContainerStatus := iotaOf containerStatusBlock "ContainerCreated"
def ContainerRunning : ContainerStatus := iotaOf containerStatusBlock "ContainerRunning"
def ContainerStopped : ContainerStatus := iotaOf containerStatusBlock "ContainerStopped"
def ContainerDead : ContainerStatus := iotaOf containerStatusBlock "ContainerDead"
/-- Impossible status to use as a virtual max. -/
def ContainerZombie : ContainerStatus := iotaOf containerStatusBlock "ContainerZombie"

/-! ## Faults, slices and the library functions the methods call -/

deriving instance DecidableEq for Except

/-- How a method of the embedding can end other than by returning. -/
inductive Fault where
  /-- Go run-time panic: invalid memory address or nil pointer dereference. -/
  | nilDereference
  /-- The format string uses a directive outside the fragment of `fmt`
  embedded below (anything but literal text, `%s` and `%%`). -/
  | unsupportedVerb
  deriving DecidableEq, Repr

/-- Go slice `[]T`: `none` is the nil slice. -/
abbrev Slice (α : Type) := Option (List α)

/-- The elements a `for ... range` loop visits: none for a nil slice. -/
def Slice.elems {α : Type} : Slice α → List α
  | none => []
  | some xs => xs

/-- `len(s) == 0`: the slice is nil or has length zero. -/
def Slice.isEmpty {α : Type} (s : Slice α) : Prop := s = none ∨ s = some []

/-- The bounds `lo` and `hi` that package `utf8` puts on the second byte of an
encoding that starts with the byte `x` (its table `acceptRanges`). -/
def secondByteRange (x : Nat) : Nat × Nat :=
  if x = 0xE0 then (0xA0, 0xBF)
  else if x = 0xED then (0x80, 0x9F)
  else if x = 0xF0 then (0x90, 0xBF)
  else if x = 0xF4 then (0x80, 0x8F)
  else (0x80, 0xBF)

/-- The byte `b` lies between `lo` and `hi`. -/
def byteIn (lo hi : Nat) (b : Char) : Bool :=
  decide (lo ≤ b.toNat) && decide (b.toNat ≤ hi)

/-- Go: the size `utf8.DecodeRuneInString` reports when the bytes start with a
well-formed encoding of a rune, and 0 when it reports `(RuneError, 1)`, that
is when they start with no well-formed encoding. The first byte fixes the
length (table `first`): below 0x80 one byte; 0xC2 to 0xDF two; 0xE0 to 0xEF
three; 0xF0 to 0xF4 four; every other value starts no encoding. The second
byte is bounded by `secondByteRange`, the later ones lie in 0x80 to 0xBF. -/
def runeLen : List Char → Nat
  | [] => 0
  | b0 :: rest =>
    let x := b0.toNat
    if x < 0x80 then 1
    else if 0xC2 ≤ x ∧ x ≤ 0xDF then
      match rest with
      | b1 :: _ => if byteIn 0x80 0xBF b1 then 2 else 0
      | _ => 0
    else if 0xE0 ≤ x ∧ x ≤ 0xEF then
      match rest with
      | b1 :: b2 :: _ =>
        if byteIn (secondByteRange x).1 (secondByteRange x).2 b1 && byteIn 0x80 0xBF b2 then 3
        else 0
      | _ => 0
    else if 0xF0 ≤ x ∧ x ≤ 0xF4 then
      match rest with
      | b1 :: b2 :: b3 :: _ =>
        if byteIn (secondByteRange x).1 (secondByteRange x).2 b1 && byteIn 0x80 0xBF b2
            && byteIn 0x80 0xBF b3 then 4
        else 0
      | _ => 0
    else 0

/-- The UTF-8 encoding of U+FFFD, the replacement character. -/
def replacementBytes : List Char := ['\xef', '\xbf', '\xbd']

/-- The loop by which `encoding/json` makes a string well-formed UTF-8, when
writing it and when reading it: a well-formed encoding is copied, and a byte
that starts none is replaced by the encoding of U+FFFD and the loop goes on at
the next byte. `pending` is the number of bytes still to copy of the encoding
recognised last. -/
def coerceFrom : Nat → List Char → List Char
  | _, [] => []
  | pending + 1, b :: rest => b :: coerceFrom pending rest
  | 0, b :: rest =>
    match runeLen (b :: rest) with
    | 0 => replacementBytes ++ coerceFrom 0 rest
    | n + 1 => b :: coerceFrom n rest

/-- The string `encoding/json` writes or stores for the Go string `s`: `s`
with each byte that starts no well-formed UTF-8 encoding replaced by U+FFFD. -/
def coerceUTF8 (s : String) : String :=
  String.mk (coerceFrom 0 s.data)

/-- Go: `utf8.ValidString(s)`: the loop above replaces nothing. -/
def validUTF8 (s : String) : Prop := coerceUTF8 s = s

instance (s : String) : Decidable (validUTF8 s) := by
  unfold validUTF8; infer_instance

/-- Go: `type TaskOverrides struct{}`. -/
structure TaskOverrides where
  deriving DecidableEq, Repr

/-- An operand of `fmt.Sprintf`, as far as this file passes them: a `string`,
or a value of the field-less struct type `TaskOverrides`. -/
inductive FmtArg where
  | str (s : String)
  | taskOverrides (o : TaskOverrides)
  deriving DecidableEq, Repr

/-- What `fmt` writes for an operand under `%s` (and `%v`): a string is copied
as it is; a struct is written as `{`, its fields, `}`, and `TaskOverrides`
has no fields. -/
def FmtArg.print : FmtArg → List Char
  | .str s => s.data
  | .taskOverrides _ => "\x7b\x7d".data

/-- The type name `fmt` prints for a surplus operand. -/
def FmtArg.typeName : FmtArg → List Char
  | .str _ => "string".data
  | .taskOverrides _ => "api.TaskOverrides".data

/-- The list `type=value, type=value` of surplus operands. -/
def fmtExtraArgs : List FmtArg → List Char
  | [] => []
  | [a] => a.typeName ++ '=' :: a.print
  | a :: b :: rest => a.typeName ++ '=' :: a.print ++ ',' :: ' ' :: fmtExtraArgs (b :: rest)

/-- The loop of `fmt`'s `doPrintf` on the rest of the format and the operands
not yet consumed. Literal text is copied; `%s` prints the next operand, or
`%!s(MISSING)` when none is left; `%%` prints a percent sign; a lone `%` at the
end prints `%!(NOVERB)`; operands left over at the end are reported as
`%!(EXTRA ...)`. Any other directive is outside the embedded fragment. -/
def doPrintf : List Char → List FmtArg → Except Fault (List Char)
  | [], [] => .ok []
  | [], a :: args => .ok ("%!(EXTRA ".data ++ fmtExtraArgs (a :: args) ++ [')'])
  | c :: rest, args =>
    if c = '%' then
      match rest, args with
      | [], _ => (doPrintf [] args).map ("%!(NOVERB)".data ++ ·)
      | v :: rest', [] =>
        if v = 's' then (doPrintf rest' []).map ("%!s(MISSING)".data ++ ·)
        else if v = '%' then (doPrintf rest' []).map ('%' :: ·)
        else .error .unsupportedVerb
      | v :: rest', a :: args' =>
        if v = 's' then (doPrintf rest' args').map (a.print ++ ·)
        else if v = '%' then (doPrintf rest' (a :: args')).map ('%' :: ·)
        else .error .unsupportedVerb
    else (doPrintf rest args).map (c :: ·)

/-- Go: `fmt.Sprintf(format, a...)`. -/
def Sprintf (format : String) (a : List FmtArg) : Except Fault String :=
  (doPrintf format.data a).map String.mk

/-- Decimal digits of a natural number, most significant first. -/
def decimalDigits (n : Nat) : List Char := Nat.toDigits 10 n

/-- Go: `strconv.Itoa(i)`, the base-10 rendering of `i`, with a leading minus
sign for a negative `i`. -/
def Itoa (i : Int) : String :=
  if i < 0 then String.mk ('-' :: decimalDigits i.natAbs)
  else String.mk (decimalDigits i.toNat)

/-! ## Data model (types.go, lines 48-160) -/

/-- Go: `type PortBinding struct`; the two ports are `uint16`. -/
structure PortBinding where
  ContainerPort : Nat
  HostPort : Nat
  BindIp : String
  deriving DecidableEq, Repr

/-- Go: `type VolumeFrom struct`, a volume which references another container
as its source. -/
structure VolumeFrom where
  SourceContainer : String
  ReadOnly : Bool
  deriving DecidableEq, Repr

/-- Go: `type ContainerOverrides struct`; `Command` is a `*[]string`. -/
structure ContainerOverrides where
  Command : Option (Slice String)
  deriving DecidableEq, Repr

/-- A non-nil value of the interface type `error`, known by its message. -/
structure GoError where
  msg : String
  deriving DecidableEq, Repr

/-- Go: `sync.Mutex`, a struct of two unexported integer fields. -/
structure Mutex where
  state : Int
  sema : Nat
  deriving DecidableEq, Repr

/-- Go: `time.Time`, kept as an instant in nanoseconds. -/
structure Time where
  nanos : Int
  deriving DecidableEq, Repr

/-- Go: `type Container struct` (lines 101-128). -/
structure Container where
  Name : String
  Image : String
  Command : Slice String
  Cpu : Nat
  Memory : Nat
  Links : Slice String
  VolumesFrom : Slice VolumeFrom
  Ports : Slice PortBinding
  Essential : Bool
  EntryPoint : Option (Slice String)
  Environment : Option (List (String × String))
  Overrides : ContainerOverrides
  DesiredStatus : ContainerStatus
  KnownStatus : ContainerStatus
  AppliedStatus : ContainerStatus
  ApplyingError : Option GoError
  SentStatus : ContainerStatus
  KnownExitCode : Option Int
  KnownPortBindings : Slice PortBinding
  StatusLock : Mutex
  deriving DecidableEq, Repr

/-- Go: a `*Container` stored in the name index of a task (line 70). The
embedding keeps values and no addresses, so a pointer that is also an entry
of `Containers` is kept as the position of that entry: what is read through
it is the current value of the entry, as it is through the shared pointer in
Go. Any other pointer is kept, like the pointers of the other fields, as the
value it points to (`none` for nil). -/
inductive ContainerRef where
  | entry (i : Nat)
  | other (c : Option Container)
  deriving DecidableEq, Repr

/-- Reading through a pointer of the name index, given the `Containers` of the
task. A position past the end reads as nil. -/
def ContainerRef.deref (cs : Slice (Option Container)) : ContainerRef → Option Container
  | .entry i => cs.elems.getD i none
  | .other c => c

/-- Go: `type Task struct` (lines 56-71); `Containers` is a `[]*Container`,
`containersByName` a `map[string]*Container`. -/
structure Task where
  Arn : String
  Overrides : TaskOverrides
  Family : String
  Version : String
  Containers : Slice (Option Container)
  DesiredStatus : TaskStatus
  KnownStatus : TaskStatus
  KnownTime : Time
  SentStatus : TaskStatus
  containersByNameLock : Mutex
  containersByName : Option (List (String × ContainerRef))
  deriving DecidableEq, Repr

/-- Go: `type ContainerStateChange struct` (lines 73-86). -/
structure ContainerStateChange where
  TaskArn : String
  ContainerName : String
  Status : ContainerStatus
  Reason : String
  ExitCode : Option Int
  PortBindings : Slice PortBinding
  TaskStatus : api.TaskStatus
  Task : Option api.Task
  Container : Option api.Container
  deriving DecidableEq, Repr

/-- Go: `type DockerContainer struct` (lines 155-160). -/
structure DockerContainer where
  DockerId : String
  DockerName : String
  Container : Option api.Container
  deriving DecidableEq, Repr

/-- The `String()` methods of the two status types. They are called by the
methods below but declared in another file of the package, so they are taken
as a parameter: any pair of functions into `string`. -/
structure StatusNames where
  taskStatus : TaskStatus → String
  containerStatus : ContainerStatus → String

/-! ## The `String` methods -/

/-- Go: `func (c *Container) String() string` (lines 136-142). Reading
`c.Name` through a nil receiver panics. -/
def Container.String (sn : StatusNames) : Option Container → Except Fault String
  | none => .error .nilDereference
  | some c => do
    let mut res ← Sprintf "%s(%s) - Status: %s"
      [.str c.Name, .str c.Image, .str (sn.containerStatus c.KnownStatus)]
    if let some code := c.KnownExitCode then
      res := res ++ ("; Exited " ++ Itoa code)
    return res

/-- Go: `func (t *Task) String() string` (lines 88-95). Reading a field
through a nil receiver panics, and so does `c.Name` for a nil entry of
`t.Containers`. -/
def Task.String (sn : StatusNames) : Option Task → Except Fault String
  | none => .error .nilDereference
  | some t => do
    let mut res ← Sprintf "%s-%s %s, Overrides: %s Status: %s(%s)"
      [.str t.Family, .str t.Version, .str t.Arn, .taskOverrides t.Overrides,
       .str (sn.taskStatus t.KnownStatus), .str (sn.taskStatus t.DesiredStatus)]
    res := res ++ " Containers: "
    for c in t.Containers.elems do
      match c with
      | none => throw Fault.nilDereference
      | some c => res := res ++ (c.Name ++ ",")
    return res

/-- Go: `func (dc *DockerContainer) String() string` (lines 162-167). The
operand `dc.Container.String()` is evaluated before `Sprintf` is entered. -/
def DockerContainer.String (sn : StatusNames) : Option DockerContainer → Except Fault String
  | none => .ok "nil"
  | some dc => do
    let container ← Container.String sn dc.Container
    Sprintf "Id: %s, Name: %s, Container: %s"
      [.str dc.DockerId, .str dc.DockerName, .str container]

/-- A sample instance of the parameter `StatusNames`, for evaluating the
methods on concrete values: the upper-case stage name, `NONE` otherwise. -/
def sampleStatusNames : StatusNames where
  taskStatus := fun s =>
    if s = TaskStatusUnknown then "UNKNOWN" else if s = TaskPulled then "PULLED"
    else if s = TaskCreated then "CREATED" else if s = TaskRunning then "RUNNING"
    else if s = TaskStopped then "STOPPED" else if s = TaskDead then "DEAD" else "NONE"
  containerStatus := fun s =>
    if s = ContainerStatusUnknown then "UNKNOWN" else if s = ContainerPulled then "PULLED"
    else if s = ContainerCreated then "CREATED" else if s = ContainerRunning then "RUNNING"
    else if s = ContainerStopped then "STOPPED" else if s = ContainerDead then "DEAD" else "NONE"

/-- The zero value `Container{}`. -/
def Container.zero : Container where
  Name := ""
  Image := ""
  Command := none
  Cpu := 0
  Memory := 0
  Links := none
  VolumesFrom := none
  Ports := none
  Essential := false
  EntryPoint := none
  Environment := none
  Overrides := { Command := none }
  DesiredStatus := 0
  KnownStatus := 0
  AppliedStatus := 0
  ApplyingError := none
  SentStatus := 0
  KnownExitCode := none
  KnownPortBindings := none
  StatusLock := { state := 0, sema := 0 }

/-- The zero value `Task{}`. -/
def Task.zero : Task where
  Arn := ""
  Overrides := {}
  Family := ""
  Version := ""
  Containers := none
  DesiredStatus := 0
  KnownStatus := 0
  KnownTime := { nanos := 0 }
  SentStatus := 0
  containersByNameLock := { state := 0, sema := 0 }
  containersByName := none

/-! ## JSON layout derived by `encoding/json` from the struct declarations

The serialized form is kept as a JSON tree; an object is the list of its
entries in the order `encoding/json` writes them. -/

/-- A JSON document. -/
inductive Json where
  | null
  | bool (b : Bool)
  | num (n : Int)
  | str (s : String)
  | arr (items : List Json)
  | obj (entries : List (String × Json))

/-- The error value returned by a failed `json.Marshal`. -/
structure MarshalError where
  msg : String
  deriving DecidableEq, Repr

/-- The outcome of encoding a value: a document or an error. -/
abbrev Encoded := Except MarshalError Json

/-- The keys of a JSON object, in order (no keys for any other document). -/
def Json.keys : Json → List String
  | .obj entries => entries.map Prod.fst
  | _ => []

/-- The value stored under `key` in a JSON object, if any. -/
def Json.get? (key : String) : Json → Option Json
  | .obj entries => entries.lookup key
  | _ => none

/-- One field of a struct declaration: its Go name and the value of the
`json` key of its struct tag (the empty string when the field has no such
tag). -/
structure StructField where
  Name : String
  Tag : String
  deriving DecidableEq, Repr

/-- Go: `reflect.StructField.IsExported`: the name starts with an upper-case
letter (ASCII names only). -/
def StructField.IsExported (f : StructField) : Bool :=
  match f.Name.data with
  | c :: _ => c.isUpper
  | [] => false

/-- Go: `parseTag` of `encoding/json`: the part of the tag before the first
comma. -/
def parseTag (tag : String) : String :=
  String.mk (tag.data.takeWhile (· ≠ ','))

/-- Go: `isValidTag` of `encoding/json` (ASCII letters and digits only): a
non-empty name of letters, digits and the listed punctuation. -/
def isValidTag (s : String) : Bool :=
  s ≠ "" ∧ s.data.all fun c =>
    "!#$%&()*+-./:;<=>?@[]^_\x7b|\x7d~ ".data.contains c || c.isAlphanum

/-- The key under which `encoding/json` writes a field, following its
`typeFields`: none for an unexported field and for the tag `-`; the tag name
when it is a valid one; the Go field name otherwise. -/
def jsonKey (f : StructField) : Option String :=
  if !f.IsExported then none
  else if f.Tag = "-" then none
  else if isValidTag (parseTag f.Tag) then some (parseTag f.Tag)
  else some f.Name

/-- The entries of a struct: each field that has a key is encoded in
declaration order, and the first failing field aborts the encoding. The value
of a field without a key is never looked at. -/
def encodeFields : List (StructField × Encoded) → Except MarshalError (List (String × Json))
  | [] => .ok []
  | (f, v) :: rest =>
    match jsonKey f with
    | none => encodeFields rest
    | some key => do
      let j ← v
      let more ← encodeFields rest
      return (key, j) :: more

/-- The struct encoder of `encoding/json`. -/
def encodeStruct (fields : List (StructField × Encoded)) : Encoded :=
  (encodeFields fields).map Json.obj

/-- Encoder of a pointer or interface value: `null` when nil. -/
def encodePtr {α : Type} (enc : α → Encoded) : Option α → Encoded
  | none => .ok .null
  | some a => enc a

/-- Encoder of a slice: `null` for the nil slice, an array otherwise. -/
def encodeSlice {α : Type} (enc : α → Encoded) : Slice α → Encoded
  | none => .ok .null
  | some xs => (xs.mapM enc).map Json.arr

/-- Encoder of a map with string keys: `null` for the nil map, otherwise an
object whose entries are sorted by key; each key is written as a string, that
is made well-formed UTF-8. -/
def encodeMap {α : Type} (enc : α → Encoded) :
    Option (List (String × α)) → Encoded
  | none => .ok .null
  | some kvs =>
    ((kvs.insertionSort fun a b => a.1 ≤ b.1).mapM fun kv =>
      (enc kv.2).map fun j => (coerceUTF8 kv.1, j)).map Json.obj

/-- Encoder of a string: the string made well-formed UTF-8. -/
def encodeString (s : String) : Encoded := .ok (.str (coerceUTF8 s))

def encodeBool (b : Bool) : Encoded := .ok (.bool b)

def encodeUint (n : Nat) : Encoded := .ok (.num n)

def encodeInt (n : Int) : Encoded := .ok (.num n)

/-- The encoders of the types whose JSON form is not determined by types.go:
the two status types (which may carry `MarshalJSON` methods declared in
another file), `time.Time`, and the dynamic value of an `error`. They are
taken as a parameter. -/
structure Marshalers where
  taskStatus : TaskStatus → Encoded
  containerStatus : ContainerStatus → Encoded
  time : Time → Encoded
  error : GoError → Encoded

/-- JSON form of a `sync.Mutex`: both fields are unexported. -/
def Mutex.MarshalJSON (mu : Mutex) : Encoded :=
  encodeStruct
    [(⟨"state", ""⟩, encodeInt mu.state),
     (⟨"sema", ""⟩, encodeUint mu.sema)]

/-- JSON form of a `TaskOverrides`, a struct without fields. -/
def TaskOverrides.MarshalJSON (_ : TaskOverrides) : Encoded :=
  encodeStruct []

/-- JSON form of a `PortBinding` (lines 48-52). -/
def PortBinding.MarshalJSON (p : PortBinding) : Encoded :=
  encodeStruct
    [(⟨"ContainerPort", ""⟩, encodeUint p.ContainerPort),
     (⟨"HostPort", ""⟩, encodeUint p.HostPort),
     (⟨"BindIp", ""⟩, encodeString p.BindIp)]

/-- JSON form of a `VolumeFrom` (lines 131-134). -/
def VolumeFrom.MarshalJSON (v : VolumeFrom) : Encoded :=
  encodeStruct
    [(⟨"SourceContainer", "sourceContainer"⟩, encodeString v.SourceContainer),
     (⟨"ReadOnly", "readOnly"⟩, encodeBool v.ReadOnly)]

/-- JSON form of a `ContainerOverrides` (lines 97-99). -/
def ContainerOverrides.MarshalJSON (o : ContainerOverrides) : Encoded :=
  encodeStruct
    [(⟨"Command", "command"⟩, encodePtr (encodeSlice encodeString) o.Command)]

/-- The fields of `Container` (lines 101-128): one line per declared field,
with its Go name, its `json` tag and the encoding of its value. -/
def Container.jsonFields (m : Marshalers) (c : Container) : List (StructField × Encoded) :=
    [(⟨"Name", ""⟩, encodeString c.Name),
     (⟨"Image", ""⟩, encodeString c.Image),
     (⟨"Command", ""⟩, encodeSlice encodeString c.Command),
     (⟨"Cpu", ""⟩, encodeUint c.Cpu),
     (⟨"Memory", ""⟩, encodeUint c.Memory),
     (⟨"Links", ""⟩, encodeSlice encodeString c.Links),
     (⟨"VolumesFrom", "volumesFrom"⟩, encodeSlice VolumeFrom.MarshalJSON c.VolumesFrom),
     (⟨"Ports", "portMappings"⟩, encodeSlice PortBinding.MarshalJSON c.Ports),
     (⟨"Essential", ""⟩, encodeBool c.Essential),
     (⟨"EntryPoint", ""⟩, encodePtr (encodeSlice encodeString) c.EntryPoint),
     (⟨"Environment", "environment"⟩, encodeMap encodeString c.Environment),
     (⟨"Overrides", "overrides"⟩, c.Overrides.MarshalJSON),
     (⟨"DesiredStatus", "desiredStatus"⟩, m.containerStatus c.DesiredStatus),
     (⟨"KnownStatus", ""⟩, m.containerStatus c.KnownStatus),
     (⟨"AppliedStatus", ""⟩, m.containerStatus c.AppliedStatus),
     (⟨"ApplyingError", ""⟩, encodePtr m.error c.ApplyingError),
     (⟨"SentStatus", ""⟩, m.containerStatus c.SentStatus),
     (⟨"KnownExitCode", ""⟩, encodePtr encodeInt c.KnownExitCode),
     (⟨"KnownPortBindings", ""⟩, encodeSlice PortBinding.MarshalJSON c.KnownPortBindings),
     (⟨"StatusLock", ""⟩, c.StatusLock.MarshalJSON)]

/-- JSON form of a `Container`, as `json.Marshal` derives it from the struct
declaration. -/
def Container.MarshalJSON (m : Marshalers) (c : Container) : Encoded :=
  encodeStruct (Container.jsonFields m c)

/-- The fields of `Task` (lines 56-71): one line per declared field. -/
def Task.jsonFields (m : Marshalers) (t : Task) : List (StructField × Encoded) :=
    [(⟨"Arn", ""⟩, encodeString t.Arn),
     (⟨"Overrides", "-"⟩, t.Overrides.MarshalJSON),
     (⟨"Family", ""⟩, encodeString t.Family),
     (⟨"Version", ""⟩, encodeString t.Version),
     (⟨"Containers", ""⟩, encodeSlice (encodePtr (Container.MarshalJSON m)) t.Containers),
     (⟨"DesiredStatus", ""⟩, m.taskStatus t.DesiredStatus),
     (⟨"KnownStatus", ""⟩, m.taskStatus t.KnownStatus),
     (⟨"KnownTime", ""⟩, m.time t.KnownTime),
     (⟨"SentStatus", ""⟩, m.taskStatus t.SentStatus),
     (⟨"containersByNameLock", ""⟩, t.containersByNameLock.MarshalJSON),
     (⟨"containersByName", ""⟩,
        encodeMap (fun r => encodePtr (Container.MarshalJSON m) (r.deref t.Containers))
          t.containersByName)]

/-- JSON form of a `Task`, as `json.Marshal` derives it from the struct
declaration. -/
def Task.MarshalJSON (m : Marshalers) (t : Task) : Encoded :=
  encodeStruct (Task.jsonFields m t)

/-- A sample instance of the parameter `Marshalers`, for evaluating the
encoders on concrete values: the default encodings of `encoding/json` for an
`int32` (a number) and for an error value without exported fields (an empty
object), and the instant as a number. -/
def sampleMarshalers : Marshalers where
  taskStatus := encodeInt
  containerStatus := encodeInt
  time := fun t => encodeInt t.nanos
  error := fun _ => .ok (.obj [])

/-! ## Values used to state the properties -/

/-- The names of the containers of a task, in the order of `Containers`. -/
def containerNames (t : Task) : List String :=
  t.Containers.elems.filterMap fun c => c.map Container.Name

/-- Each name followed by a comma, the last one included. -/
def commaTerminated : List String → String
  | [] => ""
  | n :: ns => n ++ "," ++ commaTerminated ns

/-- The names separated by commas: a comma between consecutive names and
nothing after the last one. -/
def commaJoined (names : List String) : String :=
  ",".intercalate names

/-- The optional fields of a container are all absent: nil pointers, nil
slices, nil map, nil error. -/
def optionalFieldsAbsent (c : Container) : Prop :=
  c.KnownExitCode = none ∧ c.EntryPoint = none ∧ c.Overrides.Command = none ∧
  c.ApplyingError = none ∧ c.Environment = none ∧ c.Command = none ∧ c.Links = none ∧
  c.VolumesFrom = none ∧ c.Ports = none ∧ c.KnownPortBindings = none

instance (c : Container) : Decidable (optionalFieldsAbsent c) := by
  unfold optionalFieldsAbsent; infer_instance

/-- Every entry of `Containers` is a non-nil pointer. -/
def containersPresent (t : Task) : Prop :=
  ∀ c ∈ t.Containers.elems, c ≠ none

instance (t : Task) : Decidable (containersPresent t) := by
  unfold containersPresent; infer_instance

/-- The text line 89 builds for a task, written out as a concatenation. -/
def taskHeader (sn : StatusNames) (t : Task) : String :=
  t.Family ++ "-" ++ t.Version ++ " " ++ t.Arn ++ ", Overrides: " ++ "\x7b\x7d" ++ " Status: " ++
    sn.taskStatus t.KnownStatus ++ "(" ++ sn.taskStatus t.DesiredStatus ++ ")"

/-- The document expected for a `string`. -/
def stringJson (s : String) : Json := .str (coerceUTF8 s)

/-- The document expected for a `[]string`. -/
def stringsJson : Slice String → Json
  | none => .null
  | some xs => .arr (xs.map stringJson)

/-- The document expected for a `*[]string`. -/
def commandJson : Option (Slice String) → Json
  | none => .null
  | some s => stringsJson s

/-- The document expected for a `[]VolumeFrom`: each element is an object
with the keys `sourceContainer` and `readOnly`. -/
def volumesFromJson : Slice VolumeFrom → Json
  | none => .null
  | some vs => .arr (vs.map fun v =>
      .obj [("sourceContainer", stringJson v.SourceContainer), ("readOnly", .bool v.ReadOnly)])

/-- The document expected for a `[]PortBinding`. -/
def portsJson : Slice PortBinding → Json
  | none => .null
  | some ps => .arr (ps.map fun p =>
      .obj [("ContainerPort", .num p.ContainerPort), ("HostPort", .num p.HostPort),
            ("BindIp", stringJson p.BindIp)])

/-- The document expected for a `map[string]string`. -/
def environmentJson : Option (List (String × String)) → Json
  | none => .null
  | some kvs =>
    .obj ((kvs.insertionSort fun a b => a.1 ≤ b.1).map fun kv =>
      (coerceUTF8 kv.1, stringJson kv.2))

/-- A container with one volume, one port and one environment variable. -/
def webContainer : Container :=
  { Container.zero with
    Name := "web", Image := "nginx",
    VolumesFrom := some [{ SourceContainer := "data", ReadOnly := true }],
    Ports := some [{ ContainerPort := 80, HostPort := 8080, BindIp := "0.0.0.0" }],
    Environment := some [("MODE", "prod")],
    Overrides := { Command := some (some ["nginx", "-g"]) },
    DesiredStatus := ContainerRunning }

/-- A task with the single container `web`. -/
def webTask : Task :=
  { Task.zero with
    Family := "fam", Version := "1", Arn := "arn",
    Containers := some [some { Container.zero with Name := "web", Image := "nginx" }] }

/-- A container that exited with code -1. -/
def exitedContainer : Container :=
  { Container.zero with
    Name := "web", Image := "nginx", KnownStatus := ContainerDead, KnownExitCode := some (-1) }

/-- The stages the two status families share: each task constant paired with
the container constant of the same stage. -/
def sharedStages : List (TaskStatus × ContainerStatus) :=
  [(TaskStatusNone, ContainerStatusNone), (TaskStatusUnknown, ContainerStatusUnknown),
   (TaskPulled, ContainerPulled), (TaskCreated, ContainerCreated),
   (TaskRunning, ContainerRunning), (TaskStopped, ContainerStopped),
   (TaskDead, ContainerDead)]

/-! ## Operations described by the specification but not declared in types.go -/

/-- Go: `string`, under a name that stays usable next to the `String`
methods. -/
abbrev GoString := String

/-- Modelled from the spec: `ContainerStatus.Terminal` is not in types.go.
Section 4.1: true iff the status is at least the dead status of its
family. -/
def ContainerStatus.Terminal (s : ContainerStatus) : Bool :=
  decide (ContainerDead ≤ s)

/-- Modelled from the spec: the real statuses of a container, section 3: the
statuses from `None` to `Dead`. `Zombie` is a sentinel greater than every real
status and is never assigned as an actual state, and a number outside the
enumeration is no status. -/
def ContainerStatus.isReal (s : ContainerStatus) : Bool :=
  decide (ContainerStatusNone ≤ s) && decide (s ≤ ContainerDead)

/-- The exit code of the container is known and is not zero. -/
def Container.exitedNonZero (c : Container) : Bool :=
  match c.KnownExitCode with
  | some code => decide (code ≠ 0)
  | none => false

/-- Modelled from the spec: `Container.SetKnownStatus` is not in types.go.
Under the container lock:
* sections 3 and 8: once `KnownStatus` is terminal the call is a no-op,
  whatever the status passed;
* sections 4.1 and 4.2: a status that is not a real one (`Zombie`, which no
  transition may produce, or a number outside the enumeration) is an invalid
  input and is dropped;
* section 4.2: a status not greater than the current `KnownStatus` is a stale
  update and is dropped;
* otherwise `KnownStatus` becomes `s`, and the call signals that the owning
  task should be driven toward termination when the container is essential
  and the new status is terminal with a non-zero exit code.
The result is the container after the call and the signal. -/
def Container.SetKnownStatus (c : Container) (s : ContainerStatus) : Container × Bool :=
  if ContainerStatus.Terminal c.KnownStatus then (c, false)
  else if !ContainerStatus.isReal s then (c, false)
  else if s ≤ c.KnownStatus then (c, false)
  else ({ c with KnownStatus := s },
        c.Essential && ContainerStatus.Terminal s && c.exitedNonZero)

/-- A finite sequence of `SetKnownStatus` calls on one container, in order. -/
def Container.SetKnownStatuses (c : Container) (ss : List ContainerStatus) : Container :=
  ss.foldl (fun c s => (c.SetKnownStatus s).1) c

/-- The map assignment `m[k] = v` on a map kept as an association list with
distinct keys. -/
def indexInsert (m : List (GoString × ContainerRef)) (k : GoString)
    (v : ContainerRef) : List (GoString × ContainerRef) :=
  (k, v) :: m.filter fun e => e.1 ≠ k

/-- Modelled from the spec: the loop that fills the name index. The entries
of the sequence from position `i` on are stored into `m`, each under its
`Name`, as the pointer shared with that position; a nil entry has no name and
is left out. -/
def buildIndexFrom (i : Nat) :
    List (Option Container) → List (GoString × ContainerRef) → List (GoString × ContainerRef)
  | [], m => m
  | none :: cs, m => buildIndexFrom (i + 1) cs m
  | some c :: cs, m => buildIndexFrom (i + 1) cs (indexInsert m c.Name (.entry i))

/-- Modelled from the spec: the construction of the name index is not in
types.go. Section 3: the index maps container name to container reference
and is rebuildable at any time from the owned sequence. Each owned container
is stored under its `Name`, in sequence order. -/
def buildIndex (cs : List (Option Container)) : List (GoString × ContainerRef) :=
  buildIndexFrom 0 cs []

/-- Modelled from the spec: `Task.ContainerByName` is not in types.go.
Section 4.3: under the task lock it builds the name index, or reuses the one
already built, and looks the name up; an unknown name is reported as not found
and is no failure. The result is the container read through the pointer
found, the found flag, and the task after the call (holding the index). -/
def Task.ContainerByName (t : Task) (name : GoString) : (Option Container × Bool) × Task :=
  let index :=
    match t.containersByName with
    | some m => m
    | none => buildIndex t.Containers.elems
  let t2 := { t with containersByName := some index }
  match index.lookup name with
  | some r => ((r.deref t.Containers, true), t2)
  | none => ((none, false), t2)

/-- The name index is not built yet, or it is the index of the current
sequence: as a map, it holds under every name what the index built from the
current sequence holds. The index built depends on the names and the positions
of the entries only, so it is the one built from any sequence with the same
names at the same positions. -/
def indexValid (t : Task) : Prop :=
  t.containersByName = none ∨
    ∃ m, t.containersByName = some m ∧
      ∀ name, m.lookup name = (buildIndex t.Containers.elems).lookup name

/-- Go: a write through every `*Container` of `Containers`, such as a status
change of each container: the entries change, and the pointers of the index
are the same pointers as before. -/
def Task.updateContainers (t : Task) (f : Container → Container) : Task :=
  { t with Containers := t.Containers.map fun cs => cs.map fun c => c.map f }

/-- Go: `t.Containers = append(t.Containers, c)`. -/
def Task.appendContainer (t : Task) (c : Option Container) : Task :=
  { t with Containers := some (t.Containers.elems ++ [c]) }

/-- The containers a task owns: the non-nil entries of `Containers`. -/
def ownedContainers (t : Task) : List Container :=
  t.Containers.elems.filterMap id

/-- Modelled from the spec: the essential-container failure of section 4.3.
The container is essential and either it is dead (section 3: the death of an
essential container is fatal to the task, whatever its exit code), or it
reached `Stopped` with failure, that is with a non-zero exit code. -/
def Container.essentialFailure (c : Container) : Bool :=
  c.Essential &&
    (ContainerStatus.Terminal c.KnownStatus ||
      (decide (c.KnownStatus = ContainerStopped) && c.exitedNonZero))

/-- The least `KnownStatus` among the containers, none for no container. -/
def minKnownStatus : List Container → Option ContainerStatus
  | [] => none
  | c :: cs =>
    match minKnownStatus cs with
    | none => some c.KnownStatus
    | some m => some (min c.KnownStatus m)

/-- Modelled from the spec: `Task.UpdateStatus` is not in types.go.
Section 4.3: the task `KnownStatus` is recomputed as a reduction over the
`KnownStatus` of all owned containers. The task is at a status only when all
containers have reached at least that status: the status recomputed is the
least `KnownStatus` among the containers, and at most `Dead`, the last status
of the task family (`Zombie` is never produced). The exception: when an
essential-container failure applies, the status recomputed is at least
`Stopped`, regardless of the siblings. The call returns whether the task
status advanced (the recomputed status is greater than the previous one), and
the recomputed status. Section 4.3 gives no reduction for a task without
containers: its status is left as it is. The result is (changed, newStatus)
and the task after the call. -/
def Task.UpdateStatus (t : Task) : (Bool × TaskStatus) × Task :=
  match minKnownStatus (ownedContainers t) with
  | none => ((false, t.KnownStatus), t)
  | some m =>
    let reached : TaskStatus := min m TaskDead
    let s : TaskStatus :=
      if (ownedContainers t).any Container.essentialFailure then max reached TaskStopped
      else reached
    ((decide (t.KnownStatus < s), s), { t with KnownStatus := s })

/-- A container already known to be stopped. -/
def stoppedContainer : Container :=
  { Container.zero with Name := "db", KnownStatus := ContainerStopped }

/-- A container already known to be dead. -/
def deadContainer : Container :=
  { Container.zero with Name := "db", KnownStatus := ContainerDead }

/-- An essential container that died with exit code 1. -/
def failedEssential : Container :=
  { Container.zero with
    Name := "main", Essential := true, KnownStatus := ContainerDead, KnownExitCode := some 1 }

/-- A running container. -/
def runningContainer : Container :=
  { Container.zero with Name := "side", KnownStatus := ContainerRunning }

/-- A task with an essential container that failed and a running one. -/
def failingTask : Task :=
  { Task.zero with
    Arn := "arn", KnownStatus := TaskRunning,
    Containers := some [some failedEssential, some runningContainer] }

/-- A task without containers whose name index has been built by a lookup. -/
def indexedTask : Task :=
  ({ Task.zero with Arn := "arn", Containers := some [] }.ContainerByName "web").2

/-- The task `indexedTask` after the container `web` is appended to its
`Containers`. -/
def staleTask : Task :=
  indexedTask.appendContainer (some webContainer)
/-! ## Decoding by `encoding/json`, on JSON trees

`json.Unmarshal` fills a target value from a document. A decoder below takes
the current value of its target and the document, and returns the new value,
or the error `Unmarshal` reports. The string of a `Json.str` and the keys of a
`Json.obj` are the bytes the document gives once its escapes are resolved;
the decoder makes them well-formed UTF-8, as the encoder does. A target struct
is decoded key by key in document order; a key selects the field whose JSON
name equals it, or else the first field whose JSON name equals it under
simple case folding; other keys are skipped, and a key that selects a field a
second time decodes into what the first left there. `null` leaves a string,
number, boolean or struct as it is, and makes a pointer, slice, map or
interface nil. The elements of a nil slice and newly allocated pointees are
decoded onto zero values. -/

/-- The error value returned by a failed `json.Unmarshal`. -/
structure UnmarshalError where
  msg : GoString
  deriving DecidableEq, Repr

/-- How decoding ends other than with a value. -/
inductive Undecoded where
  /-- Go: `json.Unmarshal` returns this error. -/
  | failed (e : UnmarshalError)
  /-- An array is decoded into a slice that is not nil. `Unmarshal` then
  decodes onto the elements the slice holds and onto what its backing array
  holds past its length; a `Slice` does not keep the backing array, so the
  embedding does not determine the result. This arises only when a key selects
  a slice field for the second time. -/
  | reusedSlice
  deriving DecidableEq, Repr

/-- The outcome of decoding into a target of type `α`. -/
abbrev Decoded (α : Type) := Except Undecoded α

/-- The type error of `json.Unmarshal` for a target of the Go type `goType`. -/
def typeError {α : Type} (goType : GoString) : Decoded α :=
  .error (.failed ⟨"json: cannot unmarshal into Go value of type " ++ goType⟩)

/-- Decoder of a string: the string of the document made well-formed
UTF-8. -/
def decodeString (cur : GoString) : Json → Decoded GoString
  | .null => .ok cur
  | .str s => .ok (coerceUTF8 s)
  | _ => typeError "string"

def decodeBool (cur : Bool) : Json → Decoded Bool
  | .null => .ok cur
  | .bool b => .ok b
  | _ => typeError "bool"

/-- Decoder of an unsigned integer of `bits` bits: a number outside the range
of the type is an error. -/
def decodeUint (bits : Nat) (cur : Nat) : Json → Decoded Nat
  | .null => .ok cur
  | .num n =>
    if 0 ≤ n ∧ n < 2 ^ bits then .ok n.toNat
    else typeError "uint"
  | _ => typeError "uint"

/-- Decoder of a signed integer of `bits` bits. -/
def decodeInt (bits : Nat) (cur : Int) : Json → Decoded Int
  | .null => .ok cur
  | .num n =>
    if -(2 ^ (bits - 1)) ≤ n ∧ n < 2 ^ (bits - 1) then .ok n
    else typeError "int"
  | _ => typeError "int"

/-- Decoder of a pointer: `null` gives the nil pointer; otherwise the pointee
(a new zero value when the pointer was nil) is decoded. -/
def decodePtr {α : Type} (zero : α) (dec : α → Json → Decoded α) (cur : Option α) :
    Json → Decoded (Option α)
  | .null => .ok none
  | j => (dec (cur.getD zero) j).map some

/-- Decoder of a slice: `null` gives the nil slice and the empty array a
slice of length zero, whatever the target holds; an array decoded into a nil
slice gives a slice of its elements, each decoded onto the zero value; an
array with elements decoded into a slice that is not nil is outside what the
embedding determines. -/
def decodeSlice {α : Type} (zero : α) (dec : α → Json → Decoded α) :
    Slice α → Json → Decoded (Slice α)
  | _, .null => .ok none
  | _, .arr [] => .ok (some [])
  | none, .arr items => (items.mapM (dec zero)).map some
  | some _, .arr _ => .error .reusedSlice
  | _, _ => typeError "slice"

/-- The map assignment `m[k] = v` on an association list with distinct keys:
the value of an existing key is replaced, a new key is added. -/
def mapAssign (m : List (GoString × GoString)) (k v : GoString) : List (GoString × GoString) :=
  if m.any (fun e => e.1 == k) then m.map fun e => if e.1 == k then (k, v) else e
  else m ++ [(k, v)]

/-- Decoder of a `map[string]string`: `null` gives the nil map; an object is
stored entry by entry into the current map (a new one when it was nil), each
value decoded onto the empty string and stored under the key made well-formed
UTF-8. -/
def decodeMap (cur : Option (List (GoString × GoString))) :
    Json → Decoded (Option (List (GoString × GoString)))
  | .null => .ok none
  | .obj entries =>
    (entries.foldlM
      (fun m kv => (decodeString "" kv.2).map fun v => mapAssign m (coerceUTF8 kv.1) v)
      (cur.getD [])).map some
  | _ => typeError "map[string]string"

/-- Decoder of a field of the interface type `error` that holds nil: only
`null` can be stored; any other document is a type error, because the
interface has a method and no concrete type to decode into. -/
def decodeError (_cur : Option GoError) : Json → Decoded (Option GoError)
  | .null => .ok none
  | _ => typeError "error"

/-- The loop of `foldKey`; `skip` is the number of bytes still to pass over of
the encoding folded last. -/
def foldFrom : Nat → List Char → List Char
  | _, [] => []
  | skip + 1, _ :: rest => foldFrom skip rest
  | 0, b :: rest =>
    if "\xc5\xbf".data.isPrefixOf (b :: rest) then 's' :: foldFrom 1 rest
    else if "\xe2\x84\xaa".data.isPrefixOf (b :: rest) then 'k' :: foldFrom 2 rest
    else b.toLower :: foldFrom 0 rest

/-- Folding of a key for the match that ignores case. `encoding/json` matches
under the simple case folding of Unicode; two names fold to the same string
below exactly when it matches them, provided one of them is ASCII, as the
field names of types.go are. An ASCII letter is folded with its other case.
Outside ASCII the only runes folded with an ASCII letter are U+017F (long s,
bytes C5 BF), folded with `s`, and U+212A (the Kelvin sign, bytes E2 84 AA),
folded with `k`; every other byte stays as it is. -/
def foldKey (s : GoString) : GoString :=
  String.mk (foldFrom 0 s.data)

/-- The field a key of the document selects: the first field whose JSON name
is the key, or else the first whose JSON name equals it after folding. -/
def matchField (fields : List StructField) (key : GoString) : Option StructField :=
  match fields.find? fun f => jsonKey f == some key with
  | some f => some f
  | none => fields.find? fun f => (jsonKey f).map foldKey == some (foldKey key)

/-- Decoding of one entry of the document into a struct: the key is made
well-formed UTF-8; `setField s name v` decodes `v` into the field with Go name
`name` of `s`; a key that selects no field is skipped. -/
def decodeEntry {σ : Type} (fields : List StructField)
    (setField : σ → GoString → Json → Decoded σ) (s : σ) (kv : GoString × Json) : Decoded σ :=
  match matchField fields (coerceUTF8 kv.1) with
  | some f => setField s f.Name kv.2
  | none => .ok s

/-- The struct decoder: the entries of the document are decoded in order. -/
def decodeStruct {σ : Type} (fields : List StructField)
    (setField : σ → GoString → Json → Decoded σ) (cur : σ) : Json → Decoded σ
  | .null => .ok cur
  | .obj entries => entries.foldlM (decodeEntry fields setField) cur
  | _ => typeError "struct"

/-- The decoders of the types whose JSON form is not determined by types.go:
the container status type may carry an `UnmarshalJSON` method declared in
another file. It is taken as a parameter. -/
structure Unmarshalers where
  containerStatus : ContainerStatus → Json → Decoded ContainerStatus

/-- The declared fields of `PortBinding`. -/
def PortBinding.fields : List StructField :=
  [⟨"ContainerPort", ""⟩, ⟨"HostPort", ""⟩, ⟨"BindIp", ""⟩]

def PortBinding.decodeField (p : PortBinding) (name : GoString) (v : Json) : Decoded PortBinding :=
  if name = "ContainerPort" then
    (decodeUint 16 p.ContainerPort v).map fun x => { p with ContainerPort := x }
  else if name = "HostPort" then (decodeUint 16 p.HostPort v).map fun x => { p with HostPort := x }
  else if name = "BindIp" then (decodeString p.BindIp v).map fun x => { p with BindIp := x }
  else .ok p

def PortBinding.UnmarshalJSON (p : PortBinding) (j : Json) : Decoded PortBinding :=
  decodeStruct PortBinding.fields PortBinding.decodeField p j

/-- The declared fields of `VolumeFrom`. -/
def VolumeFrom.fields : List StructField :=
  [⟨"SourceContainer", "sourceContainer"⟩, ⟨"ReadOnly", "readOnly"⟩]

def VolumeFrom.decodeField (w : VolumeFrom) (name : GoString) (v : Json) : Decoded VolumeFrom :=
  if name = "SourceContainer" then
    (decodeString w.SourceContainer v).map fun x => { w with SourceContainer := x }
  else if name = "ReadOnly" then (decodeBool w.ReadOnly v).map fun x => { w with ReadOnly := x }
  else .ok w

def VolumeFrom.UnmarshalJSON (w : VolumeFrom) (j : Json) : Decoded VolumeFrom :=
  decodeStruct VolumeFrom.fields VolumeFrom.decodeField w j

/-- The declared fields of `ContainerOverrides`. -/
def ContainerOverrides.fields : List StructField :=
  [⟨"Command", "command"⟩]

def ContainerOverrides.decodeField (o : ContainerOverrides) (name : GoString) (v : Json) :
    Decoded ContainerOverrides :=
  if name = "Command" then
    (decodePtr none (decodeSlice "" decodeString) o.Command v).map fun x => { o with Command := x }
  else .ok o

def ContainerOverrides.UnmarshalJSON (o : ContainerOverrides) (j : Json) :
    Decoded ContainerOverrides :=
  decodeStruct ContainerOverrides.fields ContainerOverrides.decodeField o j

/-- Decoder of a `sync.Mutex`: the struct has no exported field, so every key
is skipped. -/
def Mutex.UnmarshalJSON (mu : Mutex) (j : Json) : Decoded Mutex :=
  decodeStruct [⟨"state", ""⟩, ⟨"sema", ""⟩] (fun s _ _ => .ok s) mu j

/-- The declared fields of `Container` (lines 101-128), with their tags. -/
def Container.fields : List StructField :=
  [⟨"Name", ""⟩, ⟨"Image", ""⟩, ⟨"Command", ""⟩, ⟨"Cpu", ""⟩, ⟨"Memory", ""⟩, ⟨"Links", ""⟩,
   ⟨"VolumesFrom", "volumesFrom"⟩, ⟨"Ports", "portMappings"⟩, ⟨"Essential", ""⟩,
   ⟨"EntryPoint", ""⟩, ⟨"Environment", "environment"⟩, ⟨"Overrides", "overrides"⟩,
   ⟨"DesiredStatus", "desiredStatus"⟩, ⟨"KnownStatus", ""⟩, ⟨"AppliedStatus", ""⟩,
   ⟨"ApplyingError", ""⟩, ⟨"SentStatus", ""⟩, ⟨"KnownExitCode", ""⟩,
   ⟨"KnownPortBindings", ""⟩, ⟨"StatusLock", ""⟩]

/-- The zero value `PortBinding{}`. -/
def PortBinding.zero : PortBinding := { ContainerPort := 0, HostPort := 0, BindIp := "" }

/-- The zero value `VolumeFrom{}`. -/
def VolumeFrom.zero : VolumeFrom := { SourceContainer := "", ReadOnly := false }

/-- Decoding of one document value into the field `name` of a container, by
the type of the field. -/
def Container.decodeField (u : Unmarshalers) (c : Container) (name : GoString) (v : Json) :
    Decoded Container :=
  if name = "Name" then (decodeString c.Name v).map fun x => { c with Name := x }
  else if name = "Image" then (decodeString c.Image v).map fun x => { c with Image := x }
  else if name = "Command" then
    (decodeSlice "" decodeString c.Command v).map fun x => { c with Command := x }
  else if name = "Cpu" then (decodeUint 64 c.Cpu v).map fun x => { c with Cpu := x }
  else if name = "Memory" then (decodeUint 64 c.Memory v).map fun x => { c with Memory := x }
  else if name = "Links" then
    (decodeSlice "" decodeString c.Links v).map fun x => { c with Links := x }
  else if name = "VolumesFrom" then
    (decodeSlice VolumeFrom.zero VolumeFrom.UnmarshalJSON c.VolumesFrom v).map fun x =>
      { c with VolumesFrom := x }
  else if name = "Ports" then
    (decodeSlice PortBinding.zero PortBinding.UnmarshalJSON c.Ports v).map fun x =>
      { c with Ports := x }
  else if name = "Essential" then
    (decodeBool c.Essential v).map fun x => { c with Essential := x }
  else if name = "EntryPoint" then
    (decodePtr none (decodeSlice "" decodeString) c.EntryPoint v).map fun x =>
      { c with EntryPoint := x }
  else if name = "Environment" then
    (decodeMap c.Environment v).map fun x => { c with Environment := x }
  else if name = "Overrides" then
    (c.Overrides.UnmarshalJSON v).map fun x => { c with Overrides := x }
  else if name = "DesiredStatus" then
    (u.containerStatus c.DesiredStatus v).map fun x => { c with DesiredStatus := x }
  else if name = "KnownStatus" then
    (u.containerStatus c.KnownStatus v).map fun x => { c with KnownStatus := x }
  else if name = "AppliedStatus" then
    (u.containerStatus c.AppliedStatus v).map fun x => { c with AppliedStatus := x }
  else if name = "ApplyingError" then
    (decodeError c.ApplyingError v).map fun x => { c with ApplyingError := x }
  else if name = "SentStatus" then
    (u.containerStatus c.SentStatus v).map fun x => { c with SentStatus := x }
  else if name = "KnownExitCode" then
    (decodePtr 0 (decodeInt 64) c.KnownExitCode v).map fun x => { c with KnownExitCode := x }
  else if name = "KnownPortBindings" then
    (decodeSlice PortBinding.zero PortBinding.UnmarshalJSON c.KnownPortBindings v).map fun x =>
      { c with KnownPortBindings := x }
  else if name = "StatusLock" then
    (c.StatusLock.UnmarshalJSON v).map fun x => { c with StatusLock := x }
  else .ok c

/-- Go: `json.Unmarshal(data, &c)` for a `var c Container`: the document is
decoded into the zero container. -/
def Container.UnmarshalJSON (u : Unmarshalers) (j : Json) : Decoded Container :=
  decodeStruct Container.fields (Container.decodeField u) Container.zero j

/-- A sample instance of the parameter `Unmarshalers`: the default decoding of
`encoding/json` for an `int32`. -/
def sampleUnmarshalers : Unmarshalers where
  containerStatus := decodeInt 32

/-- The ports of a slice fit their type `uint16`. -/
def portsInRange (s : Slice PortBinding) : Prop :=
  ∀ p ∈ s.elems, p.ContainerPort < 2 ^ 16 ∧ p.HostPort < 2 ^ 16

/-- The status is a value of its Go type `int32`. -/
def statusInRange (s : ContainerStatus) : Prop :=
  -(2 ^ 31) ≤ s ∧ s < 2 ^ 31

instance (s : ContainerStatus) : Decidable (statusInRange s) := by
  unfold statusInRange; infer_instance

instance (s : Slice PortBinding) : Decidable (portsInRange s) := by
  unfold portsInRange; infer_instance

/-- The values of the container are values of its Go types: `uint` and `int`
of 64 bits, `uint16` ports, `int32` statuses, and a map with distinct keys. -/
def Container.wellTyped (c : Container) : Prop :=
  c.Cpu < 2 ^ 64 ∧ c.Memory < 2 ^ 64 ∧ portsInRange c.Ports ∧ portsInRange c.KnownPortBindings ∧
  (∀ code, c.KnownExitCode = some code → -(2 ^ 63) ≤ code ∧ code < 2 ^ 63) ∧
  (∀ kvs, c.Environment = some kvs → (kvs.map Prod.fst).Nodup) ∧
  statusInRange c.DesiredStatus ∧ statusInRange c.KnownStatus ∧
  statusInRange c.AppliedStatus ∧ statusInRange c.SentStatus

/-- What comes back for a string that was written by the encoder and read by
the decoder. -/
def reread (s : GoString) : GoString := coerceUTF8 (coerceUTF8 s)

/-- The strings of a slice are well-formed UTF-8. -/
def stringsValid (s : Slice GoString) : Prop :=
  ∀ x ∈ s.elems, validUTF8 x

instance (s : Slice GoString) : Decidable (stringsValid s) := by
  unfold stringsValid; infer_instance

/-- The strings among the fields `Name`, `Image`, `Ports`, `Environment` and
`Overrides.Command` of the container are well-formed UTF-8: the two names, the
`BindIp` of each port, the keys and the values of the environment, and the
words of the override command. -/
def Container.textValid (c : Container) : Prop :=
  validUTF8 c.Name ∧ validUTF8 c.Image ∧ (∀ p ∈ c.Ports.elems, validUTF8 p.BindIp) ∧
  (∀ kvs, c.Environment = some kvs → ∀ kv ∈ kvs, validUTF8 kv.1 ∧ validUTF8 kv.2) ∧
  (∀ s, c.Overrides.Command = some s → stringsValid s)

/-- The status decoder accepts every document the status encoder writes for
a status of the type. -/
def statusCodecsAgree (m : Marshalers) (u : Unmarshalers) : Prop :=
  ∀ (s cur : ContainerStatus) (j : Json), statusInRange s → m.containerStatus s = .ok j →
    ∃ s2, u.containerStatus cur j = .ok s2

/-- Two values of a `map[string]string` are the same map: both nil, or the
same entries in some order. -/
def sameMap : Option (List (GoString × GoString)) → Option (List (GoString × GoString)) → Prop
  | none, none => True
  | some a, some b => a.Perm b
  | _, _ => False

/-- The document expected for a `*int`. -/
def exitCodeJson : Option Int → Json
  | none => .null
  | some code => .num code

/-- The container `webContainer` with an error recorded. -/
def erroredContainer : Container :=
  { webContainer with ApplyingError := some { msg := "boom" } }

/-- The container `webContainer` whose override command points to a nil
slice. -/
def nilCommandContainer : Container :=
  { webContainer with Overrides := { Command := some none } }

/-- The container `webContainer` under a name that is the single byte FF, no
well-formed UTF-8. -/
def invalidNameContainer : Container :=
  { webContainer with Name := "\xff" }

/-- The task `failingTask` after a first call of `UpdateStatus`: the same two
containers, and the task already known to be stopped. -/
def stoppedFailingTask : Task :=
  failingTask.UpdateStatus.2

/-! ## Lemmas on the embedded library functions -/

theorem Sprintf_container (a b c : String) :
    Sprintf "%s(%s) - Status: %s" [.str a, .str b, .str c]
      = .ok (a ++ "(" ++ b ++ ") - Status: " ++ c) := by
  have h : Sprintf "%s(%s) - Status: %s" [.str a, .str b, .str c]
      = .ok (String.mk (a.data ++ ("(".data ++ (b.data ++ (") - Status: ".data ++ (c.data ++ [])))))) := rfl
  rw [h]
  congr 1
  apply String.ext
  simp only [String.data_append, List.append_assoc, List.append_nil]

theorem Sprintf_task (f v a k d : String) (o : TaskOverrides) :
    Sprintf "%s-%s %s, Overrides: %s Status: %s(%s)"
        [.str f, .str v, .str a, .taskOverrides o, .str k, .str d]
      = .ok (f ++ "-" ++ v ++ " " ++ a ++ ", Overrides: " ++ "\x7b\x7d" ++ " Status: " ++ k ++ "("
          ++ d ++ ")") := by
  have h : Sprintf "%s-%s %s, Overrides: %s Status: %s(%s)"
        [.str f, .str v, .str a, .taskOverrides o, .str k, .str d]
      = .ok (String.mk (f.data ++ ("-".data ++ (v.data ++ (" ".data ++ (a.data ++
          (", Overrides: ".data ++ ("\x7b\x7d".data ++ (" Status: ".data ++ (k.data ++ ("(".data ++
          (d.data ++ ")".data)))))))))))) := rfl
  rw [h]
  congr 1
  apply String.ext
  simp only [String.data_append, List.append_assoc, List.append_nil]

theorem Sprintf_docker (i n c : String) :
    Sprintf "Id: %s, Name: %s, Container: %s" [.str i, .str n, .str c]
      = .ok ("Id: " ++ i ++ ", Name: " ++ n ++ ", Container: " ++ c) := by
  have h : Sprintf "Id: %s, Name: %s, Container: %s" [.str i, .str n, .str c]
      = .ok (String.mk ("Id: ".data ++ (i.data ++ (", Name: ".data ++ (n.data ++
          (", Container: ".data ++ (c.data ++ []))))))) := rfl
  rw [h]
  congr 1
  apply String.ext
  simp only [String.data_append, List.append_assoc, List.append_nil]

/-- The embedded `Itoa` is the signed decimal rendering of the library. -/
theorem Itoa_eq_toString (i : Int) : Itoa i = toString i := by
  cases i with
  | ofNat n =>
    have h : ¬ (Int.ofNat n < 0) := by simp
    simp only [Itoa, h, if_false]
    rfl
  | negSucc n =>
    have h : Int.negSucc n < 0 := Int.negSucc_lt_zero n
    simp only [Itoa, h, if_true]
    rfl

/-- The loop of lines 91-93 on a sequence without nil entries appends each
name followed by a comma. -/
theorem forIn_names (f : Option Container → String → Except Fault (ForInStep String))
    (hf : ∀ c r, f (some c) r = .ok (.yield (r ++ (c.Name ++ ","))))
    (cs : List (Option Container)) (h : ∀ c ∈ cs, c ≠ none) (res : String) :
    forIn cs res f
      = .ok (res ++ commaTerminated (cs.filterMap fun c => c.map Container.Name)) := by
  induction cs generalizing res with
  | nil =>
    simp only [List.forIn_nil, List.filterMap_nil, commaTerminated]
    congr 1
    apply String.ext
    simp
  | cons c cs ih =>
    cases c with
    | none => exact absurd rfl (h none (List.mem_cons_self _ _))
    | some c =>
      have h2 : ∀ d ∈ cs, d ≠ none := fun d hd => h d (List.mem_cons_of_mem _ hd)
      simp only [List.forIn_cons, hf, ih h2]
      show Except.ok _ = Except.ok _
      congr 1
      apply String.ext
      simp [commaTerminated]

/-- What `Container.String` returns for a non-nil receiver. -/
theorem container_string_eq (sn : StatusNames) (c : Container) :
    Container.String sn (some c)
      = .ok (match c.KnownExitCode with
        | none => c.Name ++ "(" ++ c.Image ++ ") - Status: " ++ sn.containerStatus c.KnownStatus
        | some code => c.Name ++ "(" ++ c.Image ++ ") - Status: " ++ sn.containerStatus c.KnownStatus
            ++ ("; Exited " ++ Itoa code)) := by
  simp only [Container.String, Sprintf_container]
  cases c.KnownExitCode <;> rfl

/-- What `Task.String` returns for a non-nil receiver without nil entries. -/
theorem task_string_eq (sn : StatusNames) (t : Task) (h : containersPresent t) :
    Task.String sn (some t)
      = .ok (taskHeader sn t ++ " Containers: " ++ commaTerminated (containerNames t)) := by
  simp only [Task.String, Sprintf_task]
  simp only [Except.bind, bind, Except.pure, pure]
  rw [forIn_names _ (fun _ _ => rfl) _ h]
  rfl

/-! ## Container.String -/

/-- C1: for a container `c`, `Container.String()` is
`c.Name ++ "(" ++ c.Image ++ ") - Status: " ++` the string of `c.KnownStatus`
when `c.KnownExitCode` is absent, and that same string followed by
`"; Exited "` and the signed decimal rendering of the exit code when it is
present, for every integer code. -/
theorem C1_container_string_format (sn : StatusNames) (c : Container) :
    (c.KnownExitCode = none →
      Container.String sn (some c)
        = .ok (c.Name ++ "(" ++ c.Image ++ ") - Status: " ++ sn.containerStatus c.KnownStatus)) ∧
    (∀ code : Int, c.KnownExitCode = some code →
      Container.String sn (some c)
        = .ok (c.Name ++ "(" ++ c.Image ++ ") - Status: " ++ sn.containerStatus c.KnownStatus
            ++ "; Exited " ++ Itoa code) ∧
      Itoa code = toString code) := by
  constructor
  · intro h
    rw [container_string_eq, h]
  · intro code h
    refine ⟨?_, Itoa_eq_toString code⟩
    rw [container_string_eq, h]
    simp only [String.append_assoc]

/-- C1 at a container that exited with code -1: the rendering carries the
minus sign. -/
theorem C1_container_string_format_witness :
    exitedContainer.KnownExitCode = some (-1) ∧
    Container.String sampleStatusNames (some exitedContainer)
      = .ok "web(nginx) - Status: DEAD; Exited -1" :=
  ⟨rfl, ((C1_container_string_format sampleStatusNames exitedContainer).2 (-1) rfl).1⟩

/-! ## Status constants -/

/-- C2: the container status constants are strictly increasing in the order
None, Unknown, Pulled, Created, Running, Stopped, Dead, Zombie, and
`ContainerZombie` is strictly greater than each of the seven real statuses. -/
theorem C2_container_status_increasing :
    ContainerStatusNone < ContainerStatusUnknown ∧
    ContainerStatusUnknown < ContainerPulled ∧
    ContainerPulled < ContainerCreated ∧
    ContainerCreated < ContainerRunning ∧
    ContainerRunning < ContainerStopped ∧
    ContainerStopped < ContainerDead ∧
    ContainerDead < ContainerZombie ∧
    (∀ s ∈ [ContainerStatusNone, ContainerStatusUnknown, ContainerPulled, ContainerCreated,
        ContainerRunning, ContainerStopped, ContainerDead], s < ContainerZombie) := by
  decide

/-- C3: the task status constants are strictly increasing in the order None,
Unknown, Pulled, Created, Running, Stopped, Dead; any two of the seven are
comparable, and distinct constants have distinct values. -/
theorem C3_task_status_total_order :
    TaskStatusNone < TaskStatusUnknown ∧
    TaskStatusUnknown < TaskPulled ∧
    TaskPulled < TaskCreated ∧
    TaskCreated < TaskRunning ∧
    TaskRunning < TaskStopped ∧
    TaskStopped < TaskDead ∧
    (∀ a ∈ [TaskStatusNone, TaskStatusUnknown, TaskPulled, TaskCreated, TaskRunning,
        TaskStopped, TaskDead],
      ∀ b ∈ [TaskStatusNone, TaskStatusUnknown, TaskPulled, TaskCreated, TaskRunning,
        TaskStopped, TaskDead], a ≤ b ∨ b ≤ a) ∧
    [TaskStatusNone, TaskStatusUnknown, TaskPulled, TaskCreated, TaskRunning,
      TaskStopped, TaskDead].Pairwise (· ≠ ·) := by
  decide

/-! ## Task.String -/

/-- C4 as stated fails: for the task with the single container `web` the text
after `" Containers: "` is `web,` and not the comma-joined names `web`. -/
theorem C4_trailing_comma_counterexample :
    Task.String sampleStatusNames (some webTask)
      = .ok "fam-1 arn, Overrides: \x7b\x7d Status: NONE(NONE) Containers: web," ∧
    taskHeader sampleStatusNames webTask ++ " Containers: " ++ commaJoined (containerNames webTask)
      = "fam-1 arn, Overrides: \x7b\x7d Status: NONE(NONE) Containers: web" ∧
    Task.String sampleStatusNames (some webTask)
      ≠ .ok (taskHeader sampleStatusNames webTask ++ " Containers: "
          ++ commaJoined (containerNames webTask)) := by
  decide

/-- C4, amended: for a task whose container entries are all present,
`Task.String()` is the header followed by `" Containers: "` and then the names
of the containers in sequence order, each one followed by a comma. -/
theorem C4_names_comma_terminated (sn : StatusNames) (t : Task) (h : containersPresent t) :
    Task.String sn (some t)
      = .ok (taskHeader sn t ++ " Containers: " ++ commaTerminated (containerNames t)) :=
  task_string_eq sn t h

/-- C4, amended, at the task with the single container `web`. -/
theorem C4_names_comma_terminated_witness :
    containersPresent webTask ∧
    Task.String sampleStatusNames (some webTask)
      = .ok (taskHeader sampleStatusNames webTask ++ " Containers: " ++ commaTerminated ["web"]) :=
  ⟨by decide, C4_names_comma_terminated sampleStatusNames webTask (by decide)⟩

/-- C5: for a task whose `Containers` is nil or of length zero,
`Task.String()` returns, and the result is the header built from family,
version, ARN, overrides and known and desired status followed by exactly
`" Containers: "`. -/
theorem C5_empty_container_list (sn : StatusNames) (t : Task) (h : t.Containers.isEmpty) :
    Task.String sn (some t)
      = .ok (t.Family ++ "-" ++ t.Version ++ " " ++ t.Arn ++ ", Overrides: " ++ "\x7b\x7d"
          ++ " Status: " ++ sn.taskStatus t.KnownStatus ++ "(" ++ sn.taskStatus t.DesiredStatus
          ++ ")" ++ " Containers: ") := by
  have he : t.Containers.elems = [] := by
    rcases h with h | h <;> rw [h] <;> rfl
  have hp : containersPresent t := by
    intro c hc
    rw [he] at hc
    cases hc
  rw [task_string_eq sn t hp]
  congr 1
  apply String.ext
  simp [containerNames, he, commaTerminated, taskHeader]

/-- C5 at the zero task (nil `Containers`) and at a task with an allocated
empty `Containers`. -/
theorem C5_empty_container_list_witness :
    Task.String sampleStatusNames (some Task.zero)
      = .ok "- , Overrides: \x7b\x7d Status: NONE(NONE) Containers: " ∧
    Task.String sampleStatusNames (some { Task.zero with Containers := some [] })
      = .ok "- , Overrides: \x7b\x7d Status: NONE(NONE) Containers: " :=
  ⟨C5_empty_container_list sampleStatusNames Task.zero (Or.inl rfl),
   C5_empty_container_list sampleStatusNames { Task.zero with Containers := some [] } (Or.inr rfl)⟩

/-! ## Absent fields and nil pointers -/

/-- C6: `Container.String()` returns a string for every container whose
optional fields are all absent (nil exit code, entry point, override command,
error, environment and slices). -/
theorem C6_absent_optional_fields (sn : StatusNames) (c : Container)
    (h : optionalFieldsAbsent c) :
    Container.String sn (some c)
      = .ok (c.Name ++ "(" ++ c.Image ++ ") - Status: " ++ sn.containerStatus c.KnownStatus) := by
  rw [container_string_eq, h.1]

/-- C6 at the zero container. -/
theorem C6_absent_optional_fields_witness :
    optionalFieldsAbsent Container.zero ∧
    Container.String sampleStatusNames (some Container.zero) = .ok "() - Status: NONE" :=
  ⟨by decide, C6_absent_optional_fields sampleStatusNames Container.zero (by decide)⟩

/-- C7 as stated fails: `DockerContainer.String()` on a binding whose
`Container` is nil, and `Task.String()` on a task whose `Containers` holds a
nil entry, end in a nil pointer dereference. -/
theorem C7_nil_reference_counterexample :
    DockerContainer.String sampleStatusNames
        (some { DockerId := "id", DockerName := "name", Container := none })
      = .error .nilDereference ∧
    Task.String sampleStatusNames (some { Task.zero with Containers := some [none] })
      = .error .nilDereference := by
  decide

/-- C7, amended: the three `String` methods return a string for every present
container, for every present task whose container entries are all present,
for the absent binding, and for every present binding whose `Container` is
present. -/
theorem C7_string_returns (sn : StatusNames) (c : Container) (t : Task) (dc : DockerContainer)
    (ht : containersPresent t) (hd : dc.Container = some c) :
    (∃ s, Container.String sn (some c) = .ok s) ∧
    (∃ s, Task.String sn (some t) = .ok s) ∧
    DockerContainer.String sn none = .ok "nil" ∧
    (∃ s, DockerContainer.String sn (some dc) = .ok s) := by
  refine ⟨⟨_, container_string_eq sn c⟩, ⟨_, task_string_eq sn t ht⟩, rfl, ?_⟩
  simp only [DockerContainer.String, hd, container_string_eq, Sprintf_docker]
  exact ⟨_, rfl⟩

/-- C7, amended, at the zero container, the task `webTask` and a binding of
the zero container. -/
theorem C7_string_returns_witness :
    (∃ s, Container.String sampleStatusNames (some Container.zero) = .ok s) ∧
    (∃ s, Task.String sampleStatusNames (some webTask) = .ok s) ∧
    DockerContainer.String sampleStatusNames none = .ok "nil" ∧
    (∃ s, DockerContainer.String sampleStatusNames
        (some { DockerId := "id", DockerName := "name", Container := some Container.zero })
      = .ok s) :=
  C7_string_returns sampleStatusNames Container.zero webTask
    { DockerId := "id", DockerName := "name", Container := some Container.zero }
    (by decide) rfl

/-! ## Lemmas on the struct encoder -/

theorem encodeFields_keys (fs : List (StructField × Encoded)) :
    ∀ kvs, encodeFields fs = .ok kvs → kvs.map Prod.fst = fs.filterMap fun p => jsonKey p.1 := by
  induction fs with
  | nil =>
    intro kvs h
    simp only [encodeFields, Except.ok.injEq] at h
    subst h
    rfl
  | cons p fs ih =>
    obtain ⟨f, v⟩ := p
    intro kvs h
    rw [encodeFields] at h
    cases hk : jsonKey f with
    | none =>
      rw [hk] at h
      simp only [List.filterMap_cons, hk]
      exact ih kvs h
    | some key =>
      rw [hk] at h
      simp only [List.filterMap_cons, hk]
      cases hv : v with
      | error e => rw [hv] at h; cases h
      | ok j =>
        cases hr : encodeFields fs with
        | error e => rw [hv, hr] at h; cases h
        | ok more =>
          rw [hv, hr] at h
          have h2 : (key, j) :: more = kvs := by injection h
          subst h2
          simp only [List.map_cons, ih more hr]

theorem encodeFields_mem (fs : List (StructField × Encoded)) :
    ∀ kvs, encodeFields fs = .ok kvs → ∀ f v k, (f, v) ∈ fs → jsonKey f = some k →
      ∃ j, v = .ok j ∧ (k, j) ∈ kvs := by
  induction fs with
  | nil => intro kvs _ f v k hm; cases hm
  | cons p fs ih =>
    obtain ⟨g, w⟩ := p
    intro kvs h f v k hm hk
    rw [encodeFields] at h
    cases hg : jsonKey g with
    | none =>
      rw [hg] at h
      rcases List.mem_cons.mp hm with heq | hm2
      · cases heq
        rw [hg] at hk
        cases hk
      · exact ih kvs h f v k hm2 hk
    | some key =>
      rw [hg] at h
      cases hw : w with
      | error e => rw [hw] at h; cases h
      | ok j =>
        cases hr : encodeFields fs with
        | error e => rw [hw, hr] at h; cases h
        | ok more =>
          rw [hw, hr] at h
          have h2 : (key, j) :: more = kvs := by injection h
          subst h2
          rcases List.mem_cons.mp hm with heq | hm2
          · cases heq
            rw [hg] at hk
            cases hk
            exact ⟨j, hw, List.mem_cons_self _ _⟩
          · obtain ⟨x, hx, hmem⟩ := ih more hr f v k hm2 hk
            exact ⟨x, hx, List.mem_cons_of_mem _ hmem⟩

theorem lookup_of_mem_nodup (kvs : List (String × Json)) (k : String) (j : Json)
    (hn : (kvs.map Prod.fst).Nodup) (hm : (k, j) ∈ kvs) : kvs.lookup k = some j := by
  induction kvs with
  | nil => cases hm
  | cons p kvs ih =>
    obtain ⟨k2, j2⟩ := p
    simp only [List.map_cons, List.nodup_cons] at hn
    rcases List.mem_cons.mp hm with heq | hm2
    · cases heq
      simp [List.lookup]
    · have hne : k ≠ k2 := by
        intro he
        subst he
        exact hn.1 (List.mem_map_of_mem Prod.fst hm2)
      have : (k == k2) = false := by simpa using hne
      simp only [List.lookup, this]
      exact ih hn.2 hm2

theorem encodeStruct_ok (fs : List (StructField × Encoded)) (j : Json)
    (h : encodeStruct fs = .ok j) : ∃ kvs, encodeFields fs = .ok kvs ∧ j = .obj kvs := by
  unfold encodeStruct at h
  cases hr : encodeFields fs with
  | error e => rw [hr] at h; cases h
  | ok kvs =>
    rw [hr] at h
    refine ⟨kvs, rfl, ?_⟩
    have : Json.obj kvs = j := by injection h
    exact this.symm

theorem encodeStruct_keys (fs : List (StructField × Encoded)) (j : Json)
    (h : encodeStruct fs = .ok j) : j.keys = fs.filterMap fun p => jsonKey p.1 := by
  obtain ⟨kvs, hk, rfl⟩ := encodeStruct_ok fs j h
  exact encodeFields_keys fs kvs hk

theorem encodeStruct_get (fs : List (StructField × Encoded)) (j : Json)
    (h : encodeStruct fs = .ok j) (hn : (fs.filterMap fun p => jsonKey p.1).Nodup)
    (f : StructField) (v : Encoded) (k : String) (hm : (f, v) ∈ fs) (hk : jsonKey f = some k) :
    ∃ x, v = .ok x ∧ j.get? k = some x := by
  obtain ⟨kvs, hkv, rfl⟩ := encodeStruct_ok fs j h
  obtain ⟨x, hx, hmem⟩ := encodeFields_mem fs kvs hkv f v k hm hk
  refine ⟨x, hx, ?_⟩
  rw [← encodeFields_keys fs kvs hkv] at hn
  exact lookup_of_mem_nodup kvs k x hn hmem

theorem mapM_ok {α β : Type} (f : α → Except MarshalError β) (g : α → β)
    (h : ∀ x, f x = .ok (g x)) (xs : List α) : xs.mapM f = .ok (xs.map g) := by
  induction xs with
  | nil => rfl
  | cons x xs ih =>
    simp only [List.mapM_cons, h, ih, List.map_cons]
    rfl

theorem encodeSlice_strings (s : Slice String) :
    encodeSlice encodeString s = .ok (stringsJson s) := by
  cases s with
  | none => rfl
  | some xs =>
    simp only [encodeSlice, stringsJson, mapM_ok encodeString stringJson (fun _ => rfl) xs]
    rfl

theorem encodePtr_command (s : Option (Slice String)) :
    encodePtr (encodeSlice encodeString) s = .ok (commandJson s) := by
  cases s with
  | none => rfl
  | some xs => exact encodeSlice_strings xs

theorem encodeSlice_volumesFrom (s : Slice VolumeFrom) :
    encodeSlice VolumeFrom.MarshalJSON s = .ok (volumesFromJson s) := by
  cases s with
  | none => rfl
  | some xs =>
    simp only [encodeSlice, volumesFromJson, mapM_ok VolumeFrom.MarshalJSON _ (fun _ => rfl) xs]
    rfl

theorem encodeSlice_ports (s : Slice PortBinding) :
    encodeSlice PortBinding.MarshalJSON s = .ok (portsJson s) := by
  cases s with
  | none => rfl
  | some xs =>
    simp only [encodeSlice, portsJson, mapM_ok PortBinding.MarshalJSON _ (fun _ => rfl) xs]
    rfl

theorem encodeMap_environment (e : Option (List (String × String))) :
    encodeMap encodeString e = .ok (environmentJson e) := by
  cases e with
  | none => rfl
  | some kvs =>
    simp only [encodeMap, environmentJson]
    rw [mapM_ok
      (fun kv : String × String => Except.map (fun j => (coerceUTF8 kv.1, j)) (encodeString kv.2))
      (fun kv => (coerceUTF8 kv.1, stringJson kv.2)) (fun _ => rfl)]
    rfl

theorem overrides_marshal (o : ContainerOverrides) :
    o.MarshalJSON = .ok (.obj [("command", commandJson o.Command)]) := by
  have h : o.MarshalJSON
      = (encodePtr (encodeSlice encodeString) o.Command).bind fun j =>
          .ok (.obj [("command", j)]) := by
    cases hc : encodePtr (encodeSlice encodeString) o.Command <;>
      simp only [ContainerOverrides.MarshalJSON, encodeStruct, encodeFields, hc] <;> rfl
  rw [h, encodePtr_command]
  rfl

theorem container_keys (m : Marshalers) (c : Container) (j : Json)
    (h : Container.MarshalJSON m c = .ok j) :
    j.keys = ["Name", "Image", "Command", "Cpu", "Memory", "Links", "volumesFrom",
      "portMappings", "Essential", "EntryPoint", "environment", "overrides", "desiredStatus",
      "KnownStatus", "AppliedStatus", "ApplyingError", "SentStatus", "KnownExitCode",
      "KnownPortBindings", "StatusLock"] := by
  rw [encodeStruct_keys _ j h]
  rfl

theorem task_keys (m : Marshalers) (t : Task) (j : Json)
    (h : Task.MarshalJSON m t = .ok j) :
    j.keys = ["Arn", "Family", "Version", "Containers", "DesiredStatus", "KnownStatus",
      "KnownTime", "SentStatus"] := by
  rw [encodeStruct_keys _ j h]
  rfl

theorem container_get (m : Marshalers) (c : Container) (j : Json)
    (h : Container.MarshalJSON m c = .ok j)
    (f : StructField) (v : Encoded) (k : String)
    (hm : (f, v) ∈ Container.jsonFields m c) (hk : jsonKey f = some k) :
    ∃ x, v = .ok x ∧ j.get? k = some x := by
  refine encodeStruct_get _ j h ?_ f v k hm hk
  rw [← encodeStruct_keys _ j h, container_keys m c j h]
  decide

theorem get_none_of_not_key (j : Json) (k : String) (h : k ∉ j.keys) : j.get? k = none := by
  cases j with
  | obj kvs =>
    simp only [Json.keys] at h
    simp only [Json.get?]
    induction kvs with
    | nil => rfl
    | cons p kvs ih =>
      obtain ⟨k2, v⟩ := p
      simp only [List.map_cons, List.mem_cons, not_or] at h
      have : (k == k2) = false := by simpa using h.1
      simp only [List.lookup, this]
      exact ih h.2
  | _ => rfl

/-! ## Serialized form -/

/-- C8 fails on the code: the serialized form of the zero container has the
twenty keys of the exported fields, the last of which is `StatusLock`, holding
the empty object. -/
theorem C8_status_lock_is_serialized :
    (Container.MarshalJSON sampleMarshalers Container.zero).map Json.keys
      = .ok ["Name", "Image", "Command", "Cpu", "Memory", "Links", "volumesFrom",
          "portMappings", "Essential", "EntryPoint", "environment", "overrides",
          "desiredStatus", "KnownStatus", "AppliedStatus", "ApplyingError", "SentStatus",
          "KnownExitCode", "KnownPortBindings", "StatusLock"] ∧
    (Container.MarshalJSON sampleMarshalers Container.zero).map (Json.get? "StatusLock")
      = .ok (some (.obj [])) :=
  ⟨rfl, rfl⟩

/-- The entry `StatusLock` is present in the serialized form of every
container, whatever the encoders of the status, time and error types. -/
theorem statusLock_entry (m : Marshalers) (c : Container) (j : Json)
    (h : Container.MarshalJSON m c = .ok j) :
    "StatusLock" ∈ j.keys ∧ j.get? "StatusLock" = some (.obj []) := by
  constructor
  · rw [container_keys m c j h]
    decide
  · obtain ⟨x, hx, hg⟩ := container_get m c j h ⟨"StatusLock", ""⟩ c.StatusLock.MarshalJSON
      "StatusLock" (by simp [Container.jsonFields]) rfl
    have : x = .obj [] := by
      have h2 : c.StatusLock.MarshalJSON = .ok (.obj []) := rfl
      rw [h2] at hx
      injection hx with hx
      exact hx.symm
    rw [hg, this]

/-- C9: the serialized form of a task has exactly the keys of the eight
exported fields without the tag `-`; it has no entry for `Overrides`, for
`containersByName` or for `containersByNameLock`. -/
theorem C9_task_json_excludes_internal (m : Marshalers) (t : Task) (j : Json)
    (h : Task.MarshalJSON m t = .ok j) :
    j.keys = ["Arn", "Family", "Version", "Containers", "DesiredStatus", "KnownStatus",
      "KnownTime", "SentStatus"] ∧
    "Overrides" ∉ j.keys ∧ "containersByName" ∉ j.keys ∧ "containersByNameLock" ∉ j.keys ∧
    j.get? "Overrides" = none ∧ j.get? "containersByName" = none ∧
    j.get? "containersByNameLock" = none := by
  have hk := task_keys m t j h
  have h1 : "Overrides" ∉ j.keys := by rw [hk]; decide
  have h2 : "containersByName" ∉ j.keys := by rw [hk]; decide
  have h3 : "containersByNameLock" ∉ j.keys := by rw [hk]; decide
  exact ⟨hk, h1, h2, h3, get_none_of_not_key j _ h1, get_none_of_not_key j _ h2,
    get_none_of_not_key j _ h3⟩

/-- C9 at the task `webTask`: it serializes, and the keys are those of the
eight wire fields. -/
theorem C9_task_json_excludes_internal_witness :
    ∃ j, Task.MarshalJSON sampleMarshalers webTask = .ok j ∧
      j.keys = ["Arn", "Family", "Version", "Containers", "DesiredStatus", "KnownStatus",
        "KnownTime", "SentStatus"] ∧
      j.get? "Overrides" = none :=
  ⟨_, rfl, (C9_task_json_excludes_internal sampleMarshalers webTask _ rfl).1,
    (C9_task_json_excludes_internal sampleMarshalers webTask _ rfl).2.2.2.2.1⟩

/-- C10: in the serialized form of a container the fields `VolumesFrom`,
`Ports`, `Environment`, `Overrides` and `DesiredStatus` are the entries under
the keys `volumesFrom`, `portMappings`, `environment`, `overrides` and
`desiredStatus` (and not under their Go names); the override command is the
entry `command` inside `overrides`; each `VolumeFrom` is an object with the
keys `sourceContainer` and `readOnly`. -/
theorem C10_container_json_keys (m : Marshalers) (c : Container) (j : Json)
    (h : Container.MarshalJSON m c = .ok j) :
    j.get? "volumesFrom" = some (volumesFromJson c.VolumesFrom) ∧
    j.get? "portMappings" = some (portsJson c.Ports) ∧
    j.get? "environment" = some (environmentJson c.Environment) ∧
    j.get? "overrides" = some (.obj [("command", commandJson c.Overrides.Command)]) ∧
    (∃ d, m.containerStatus c.DesiredStatus = .ok d ∧ j.get? "desiredStatus" = some d) ∧
    "VolumesFrom" ∉ j.keys ∧ "Ports" ∉ j.keys ∧ "Environment" ∉ j.keys ∧
    "Overrides" ∉ j.keys ∧ "DesiredStatus" ∉ j.keys ∧ j.keys.Nodup := by
  have hk := container_keys m c j h
  obtain ⟨x1, hx1, hg1⟩ := container_get m c j h ⟨"VolumesFrom", "volumesFrom"⟩
    (encodeSlice VolumeFrom.MarshalJSON c.VolumesFrom) "volumesFrom"
    (by simp [Container.jsonFields]) rfl
  obtain ⟨x2, hx2, hg2⟩ := container_get m c j h ⟨"Ports", "portMappings"⟩
    (encodeSlice PortBinding.MarshalJSON c.Ports) "portMappings"
    (by simp [Container.jsonFields]) rfl
  obtain ⟨x3, hx3, hg3⟩ := container_get m c j h ⟨"Environment", "environment"⟩
    (encodeMap encodeString c.Environment) "environment"
    (by simp [Container.jsonFields]) rfl
  obtain ⟨x4, hx4, hg4⟩ := container_get m c j h ⟨"Overrides", "overrides"⟩
    c.Overrides.MarshalJSON "overrides"
    (by simp [Container.jsonFields]) rfl
  obtain ⟨x5, hx5, hg5⟩ := container_get m c j h ⟨"DesiredStatus", "desiredStatus"⟩
    (m.containerStatus c.DesiredStatus) "desiredStatus"
    (by simp [Container.jsonFields]) rfl
  rw [encodeSlice_volumesFrom] at hx1
  rw [encodeSlice_ports] at hx2
  rw [encodeMap_environment] at hx3
  rw [overrides_marshal] at hx4
  injection hx1 with hx1
  injection hx2 with hx2
  injection hx3 with hx3
  injection hx4 with hx4
  subst hx1 hx2 hx3 hx4
  refine ⟨hg1, hg2, hg3, hg4, ⟨x5, hx5, hg5⟩, ?_, ?_, ?_, ?_, ?_, ?_⟩ <;> rw [hk] <;> decide

/-- C10 at the container `webContainer`. -/
theorem C10_container_json_keys_witness :
    ∃ j, Container.MarshalJSON sampleMarshalers webContainer = .ok j ∧
      j.get? "volumesFrom"
        = some (.arr [.obj [("sourceContainer", .str "data"), ("readOnly", .bool true)]]) ∧
      j.get? "portMappings"
        = some (.arr [.obj [("ContainerPort", .num 80), ("HostPort", .num 8080),
            ("BindIp", .str "0.0.0.0")]]) ∧
      j.get? "environment" = some (.obj [("MODE", .str "prod")]) ∧
      j.get? "overrides" = some (.obj [("command", .arr [.str "nginx", .str "-g"])]) ∧
      j.get? "desiredStatus" = some (.num 4) :=
  ⟨_, rfl, (C10_container_json_keys sampleMarshalers webContainer _ rfl).1,
    (C10_container_json_keys sampleMarshalers webContainer _ rfl).2.1,
    (C10_container_json_keys sampleMarshalers webContainer _ rfl).2.2.1,
    (C10_container_json_keys sampleMarshalers webContainer _ rfl).2.2.2.1, rfl⟩

/-! ## Behaviour of the String methods and of the status families -/

/-- C15: for a task whose containers are all present, `Task.String()` is
`Family`, `-`, `Version`, a blank, `Arn`, `, Overrides: `, the rendering of the
empty `TaskOverrides` value, ` Status: `, the string of `KnownStatus`, the
string of `DesiredStatus` in parentheses, ` Containers: `, and then one entry
per container in sequence order, its name followed by a comma, the last one
included. -/
theorem C15_task_string_exact (sn : StatusNames) (t : Task) (h : containersPresent t) :
    Task.String sn (some t)
      = .ok (t.Family ++ "-" ++ t.Version ++ " " ++ t.Arn ++ ", Overrides: "
          ++ String.mk (FmtArg.taskOverrides t.Overrides).print
          ++ " Status: " ++ sn.taskStatus t.KnownStatus ++ "(" ++ sn.taskStatus t.DesiredStatus
          ++ ")" ++ " Containers: " ++ commaTerminated (containerNames t)) ∧
    (containerNames t).length = t.Containers.elems.length := by
  constructor
  · rw [task_string_eq sn t h]
    rfl
  · unfold containerNames
    have hp : ∀ c ∈ t.Containers.elems, c ≠ none := h
    revert hp
    generalize t.Containers.elems = cs
    intro hp
    induction cs with
    | nil => rfl
    | cons c cs ih =>
      cases c with
      | none => exact absurd rfl (hp none (List.mem_cons_self _ _))
      | some c =>
        simp only [List.filterMap_cons, Option.map_some', List.length_cons]
        rw [ih (fun d hd => hp d (List.mem_cons_of_mem _ hd))]

/-- C15 at a task with the two containers `web` and `db`. -/
theorem C15_task_string_exact_witness :
    Task.String sampleStatusNames
        (some { webTask with
          KnownStatus := TaskRunning,
          Containers := some [some { Container.zero with Name := "web" },
                              some { Container.zero with Name := "db" }] })
      = .ok "fam-1 arn, Overrides: \x7b\x7d Status: RUNNING(NONE) Containers: web,db," :=
  (C15_task_string_exact sampleStatusNames
    { webTask with
      KnownStatus := TaskRunning,
      Containers := some [some { Container.zero with Name := "web" },
                          some { Container.zero with Name := "db" }] } (by decide)).1

/-- C16: `DockerContainer.String()` is exactly `nil` for the absent binding,
and for a present binding with a present container it is `Id: `, `DockerId`,
`, Name: `, `DockerName`, `, Container: ` and the `String()` of the bound
container. -/
theorem C16_docker_container_string (sn : StatusNames) (dc : DockerContainer) (c : Container)
    (h : dc.Container = some c) :
    DockerContainer.String sn none = .ok "nil" ∧
    ∃ s, Container.String sn (some c) = .ok s ∧
      DockerContainer.String sn (some dc)
        = .ok ("Id: " ++ dc.DockerId ++ ", Name: " ++ dc.DockerName ++ ", Container: " ++ s) := by
  refine ⟨rfl, _, container_string_eq sn c, ?_⟩
  simp only [DockerContainer.String, h, container_string_eq, Sprintf_docker]
  rfl

/-- C16 at a binding of the exited container. -/
theorem C16_docker_container_string_witness :
    DockerContainer.String sampleStatusNames none = .ok "nil" ∧
    ∃ s, Container.String sampleStatusNames (some exitedContainer) = .ok s ∧
      DockerContainer.String sampleStatusNames
          (some { DockerId := "abc", DockerName := "ecs-web", Container := some exitedContainer })
        = .ok ("Id: " ++ "abc" ++ ", Name: " ++ "ecs-web" ++ ", Container: " ++ s) :=
  C16_docker_container_string sampleStatusNames
    { DockerId := "abc", DockerName := "ecs-web", Container := some exitedContainer }
    exitedContainer rfl

/-- C17: on the seven shared stages the task constant and the container
constant have the same value, 0 to 6, so `none` is the zero value of both
types and the correspondence is strictly order preserving; `ContainerZombie`
is 7 and no task constant has that value. -/
theorem C17_status_families_agree :
    (TaskStatusNone = 0 ∧ ContainerStatusNone = 0) ∧
    (TaskStatusUnknown = 1 ∧ ContainerStatusUnknown = 1) ∧
    (TaskPulled = 2 ∧ ContainerPulled = 2) ∧
    (TaskCreated = 3 ∧ ContainerCreated = 3) ∧
    (TaskRunning = 4 ∧ ContainerRunning = 4) ∧
    (TaskStopped = 5 ∧ ContainerStopped = 5) ∧
    (TaskDead = 6 ∧ ContainerDead = 6) ∧
    (∀ p ∈ sharedStages, ∀ q ∈ sharedStages, p.1 < q.1 ↔ p.2 < q.2) ∧
    (∀ p ∈ sharedStages, p.1 = p.2) ∧
    ContainerZombie = 7 ∧
    (∀ p ∈ sharedStages, p.1 ≠ ContainerZombie) := by
  decide

/-- C18: `Container.String()` depends only on `Name`, `Image`, `KnownStatus`
and `KnownExitCode`: two containers that agree on these four fields have the
same string, whatever their other fields. -/
theorem C18_container_string_depends_on_four_fields (sn : StatusNames) (c d : Container)
    (hn : c.Name = d.Name) (hi : c.Image = d.Image) (hs : c.KnownStatus = d.KnownStatus)
    (he : c.KnownExitCode = d.KnownExitCode) :
    Container.String sn (some c) = Container.String sn (some d) := by
  rw [container_string_eq, container_string_eq, hn, hi, hs, he]

/-- C18 at two containers that differ in environment, command, ports,
overrides, desired, applied and sent status and error. -/
theorem C18_container_string_depends_on_four_fields_witness :
    webContainer.Environment ≠ { webContainer with
        Environment := some [("SECRET", "hunter2")], Command := some ["sh"],
        Ports := none, Overrides := { Command := none }, DesiredStatus := ContainerStopped,
        AppliedStatus := ContainerRunning, SentStatus := ContainerCreated,
        ApplyingError := some { msg := "boom" }, EntryPoint := some (some ["x"]) }.Environment ∧
    Container.String sampleStatusNames (some webContainer)
      = Container.String sampleStatusNames (some { webContainer with
        Environment := some [("SECRET", "hunter2")], Command := some ["sh"],
        Ports := none, Overrides := { Command := none }, DesiredStatus := ContainerStopped,
        AppliedStatus := ContainerRunning, SentStatus := ContainerCreated,
        ApplyingError := some { msg := "boom" }, EntryPoint := some (some ["x"]) }) :=
  ⟨by decide, C18_container_string_depends_on_four_fields sampleStatusNames _ _ rfl rfl rfl rfl⟩

/-! ## SetKnownStatus -/

/-- A call on a container whose status is terminal changes nothing. -/
theorem setKnownStatus_terminal (c : Container) (s : ContainerStatus)
    (h : ContainerStatus.Terminal c.KnownStatus = true) : c.SetKnownStatus s = (c, false) := by
  unfold Container.SetKnownStatus
  simp only [h, if_true]

/-- A sequence of calls on a container whose status is terminal changes
nothing. -/
theorem setKnownStatuses_terminal (ss : List ContainerStatus) (c : Container)
    (h : ContainerStatus.Terminal c.KnownStatus = true) : c.SetKnownStatuses ss = c := by
  induction ss with
  | nil => rfl
  | cons s ss ih =>
    show Container.SetKnownStatuses (c.SetKnownStatus s).1 ss = c
    rw [setKnownStatus_terminal c s h]
    exact ih

/-- A call that passes no real status changes nothing. -/
theorem setKnownStatus_invalid (c : Container) (s : ContainerStatus)
    (h : ContainerStatus.isReal s = false) : (c.SetKnownStatus s).1 = c := by
  unfold Container.SetKnownStatus
  by_cases ht : ContainerStatus.Terminal c.KnownStatus = true
  · simp only [ht, if_true]
  · simp only [ht, h, Bool.not_false, if_true, if_false, Bool.false_eq_true]

/-- A call that passes a real status to a container that is not terminal
leaves the larger of the previous status and the status passed. -/
theorem setKnownStatus_max (c : Container) (s : ContainerStatus)
    (hc : ContainerStatus.Terminal c.KnownStatus = false)
    (hs : ContainerStatus.isReal s = true) :
    (c.SetKnownStatus s).1.KnownStatus = max c.KnownStatus s := by
  unfold Container.SetKnownStatus
  simp only [hc, hs, Bool.not_true, Bool.false_eq_true, if_false]
  by_cases h : s ≤ c.KnownStatus
  · simp only [h, if_true]
    exact (max_eq_left h).symm
  · simp only [h, if_false]
    exact (max_eq_right (le_of_lt (not_le.mp h))).symm

theorem foldl_max_assoc (ss : List ContainerStatus) (a b : ContainerStatus) :
    ss.foldl max (max a b) = max a (ss.foldl max b) := by
  induction ss generalizing a b with
  | nil => rfl
  | cons s ss ih =>
    show ss.foldl max (max (max a b) s) = max a (ss.foldl max (max b s))
    rw [max_assoc, ih]

/-- When the largest status passed is at least the previous status, it is the
result of the fold. -/
theorem foldl_max_absorb (ss : List ContainerStatus) (a m : ContainerStatus)
    (hm : ss.max? = some m) (ha : a ≤ m) : ss.foldl max a = m := by
  cases ss with
  | nil => cases hm
  | cons s ss =>
    have hs : ss.foldl max s = m := by
      have : (s :: ss).max? = some (ss.foldl max s) := rfl
      rw [this] at hm
      injection hm
    show ss.foldl max (max a s) = m
    rw [foldl_max_assoc, hs]
    exact max_eq_right ha

/-- Statuses that are all at most the previous one leave it the largest. -/
theorem foldl_max_of_le (ss : List ContainerStatus) (a : ContainerStatus)
    (h : ∀ s ∈ ss, s ≤ a) : ss.foldl max a = a := by
  induction ss with
  | nil => rfl
  | cons s ss ih =>
    show ss.foldl max (max a s) = a
    rw [max_eq_left (h s (List.mem_cons_self _ _))]
    exact ih fun x hx => h x (List.mem_cons_of_mem _ hx)

theorem isReal_le_dead (s : ContainerStatus) (h : ContainerStatus.isReal s = true) :
    s ≤ ContainerDead := by
  unfold ContainerStatus.isReal at h
  simp only [Bool.and_eq_true, decide_eq_true_eq] at h
  exact h.2

theorem terminal_iff (s : ContainerStatus) :
    ContainerStatus.Terminal s = true ↔ ContainerDead ≤ s := by
  unfold ContainerStatus.Terminal
  exact decide_eq_true_iff

/-- A sequence of calls on a container that is not terminal leaves the largest
of the previous status and the real statuses passed. -/
theorem setKnownStatuses_foldl_max (ss : List ContainerStatus) (c : Container)
    (hc : ContainerStatus.Terminal c.KnownStatus = false) :
    (c.SetKnownStatuses ss).KnownStatus
      = (ss.filter ContainerStatus.isReal).foldl max c.KnownStatus := by
  induction ss generalizing c with
  | nil => rfl
  | cons s ss ih =>
    show (Container.SetKnownStatuses (c.SetKnownStatus s).1 ss).KnownStatus = _
    cases hs : ContainerStatus.isReal s with
    | false =>
      rw [setKnownStatus_invalid c s hs, List.filter_cons_of_neg (by simp [hs])]
      exact ih c hc
    | true =>
      rw [List.filter_cons_of_pos hs]
      show _ = (ss.filter ContainerStatus.isReal).foldl max (max c.KnownStatus s)
      rw [← setKnownStatus_max c s hc hs]
      cases ht : ContainerStatus.Terminal (c.SetKnownStatus s).1.KnownStatus with
      | false => exact ih _ ht
      | true =>
        rw [setKnownStatuses_terminal ss _ ht]
        refine (foldl_max_of_le _ _ fun x hx => ?_).symm
        have hx2 : ContainerStatus.isReal x = true := (List.mem_filter.mp hx).2
        exact le_trans (isReal_le_dead x hx2) ((terminal_iff _).mp ht)

/-- C12 as stated fails. On a container already known to be stopped,
`SetKnownStatus(Running)` followed by `SetKnownStatus(Created)` leaves
`Stopped`, which is neither the largest status passed nor `Running`. On a
fresh container, `SetKnownStatus(Running)` followed by
`SetKnownStatus(Zombie)` leaves `Running`, and the largest status passed is
`Zombie`. -/
theorem C12_initial_status_counterexample :
    [ContainerRunning, ContainerCreated].max? = some ContainerRunning ∧
    (stoppedContainer.SetKnownStatuses [ContainerRunning, ContainerCreated]).KnownStatus
      = ContainerStopped ∧
    ContainerStopped ≠ ContainerRunning ∧
    [ContainerRunning, ContainerZombie].max? = some ContainerZombie ∧
    (Container.zero.SetKnownStatuses [ContainerRunning, ContainerZombie]).KnownStatus
      = ContainerRunning ∧
    ContainerRunning ≠ ContainerZombie := by
  decide

/-- C12, amended: after a finite sequence of `SetKnownStatus` calls the
`KnownStatus` is the status before the calls when that one is terminal, and
otherwise the largest of the status before the calls and the real statuses
passed (those from `None` to `Dead`); when every status passed is real, it is
the largest status passed whenever that one is at least the status before the
calls; and on a container whose status is at most `Running`,
`SetKnownStatus(Running)` followed by `SetKnownStatus(Created)` leaves
`Running`. -/
theorem C12_known_status_is_maximum (c : Container) (ss : List ContainerStatus) :
    (c.SetKnownStatuses ss).KnownStatus
      = (if ContainerStatus.Terminal c.KnownStatus then c.KnownStatus
         else (ss.filter ContainerStatus.isReal).foldl max c.KnownStatus) ∧
    ((∀ s ∈ ss, ContainerStatus.isReal s = true) → ∀ m, ss.max? = some m → c.KnownStatus ≤ m →
      (c.SetKnownStatuses ss).KnownStatus = m) ∧
    (c.KnownStatus ≤ ContainerRunning →
      (c.SetKnownStatuses [ContainerRunning, ContainerCreated]).KnownStatus
        = ContainerRunning) := by
  refine ⟨?_, ?_, ?_⟩
  · cases ht : ContainerStatus.Terminal c.KnownStatus with
    | true =>
      rw [setKnownStatuses_terminal ss c ht]
      rfl
    | false =>
      rw [setKnownStatuses_foldl_max ss c ht]
      rfl
  · intro hreal m hm hle
    cases ht : ContainerStatus.Terminal c.KnownStatus with
    | true =>
      rw [setKnownStatuses_terminal ss c ht]
      have hmem : m ∈ ss := List.max?_mem (fun a b => max_choice a b) hm
      exact le_antisymm hle
        (le_trans (isReal_le_dead m (hreal m hmem)) ((terminal_iff _).mp ht))
    | false =>
      rw [setKnownStatuses_foldl_max ss c ht, List.filter_eq_self.mpr hreal]
      exact foldl_max_absorb ss _ m hm hle
  · intro hle
    have ht : ContainerStatus.Terminal c.KnownStatus = false := by
      rw [Bool.eq_false_iff]
      intro h
      have h1 := (terminal_iff _).mp h
      have h2 : ContainerRunning < ContainerDead := by decide
      exact absurd (lt_of_lt_of_le h2 h1) (not_lt.mpr hle)
    rw [setKnownStatuses_foldl_max _ c ht]
    exact foldl_max_absorb [ContainerRunning, ContainerCreated] _ ContainerRunning
      (by decide) hle

/-- C12, amended, at a fresh container receiving `Running` and then `Created`,
and at one receiving `Created`, `Dead`, `Running`. -/
theorem C12_known_status_is_maximum_witness :
    (Container.zero.SetKnownStatuses [ContainerRunning, ContainerCreated]).KnownStatus
      = ContainerRunning ∧
    (Container.zero.SetKnownStatuses [ContainerCreated, ContainerDead, ContainerRunning]).KnownStatus
      = ContainerDead :=
  ⟨(C12_known_status_is_maximum Container.zero []).2.2 (by decide),
   (C12_known_status_is_maximum Container.zero
      [ContainerCreated, ContainerDead, ContainerRunning]).2.1 (by decide) ContainerDead
      (by decide) (by decide)⟩

/-! ## ContainerByName -/

theorem lookup_indexInsert_self (m : List (GoString × ContainerRef)) (k : GoString)
    (v : ContainerRef) : (indexInsert m k v).lookup k = some v := by
  simp [indexInsert, List.lookup]

theorem lookup_filter_ne (m : List (GoString × ContainerRef)) (k j : GoString)
    (h : j ≠ k) : (m.filter fun e => e.1 ≠ k).lookup j = m.lookup j := by
  induction m with
  | nil => rfl
  | cons e m ih =>
    obtain ⟨k2, v2⟩ := e
    by_cases hk : k2 = k
    · subst hk
      have hj : (j == k2) = false := by simpa using h
      simp only [List.filter_cons, ne_eq, not_true_eq_false, decide_False, List.lookup, hj]
      simpa using ih
    · have hd : decide (k2 ≠ k) = true := by simpa using hk
      simp only [List.filter_cons, hd, if_true, List.lookup]
      cases hjk : (j == k2)
      · exact ih
      · rfl

theorem lookup_indexInsert_ne (m : List (GoString × ContainerRef)) (k j : GoString)
    (v : ContainerRef) (h : j ≠ k) : (indexInsert m k v).lookup j = m.lookup j := by
  have hj : (j == k) = false := by simpa using h
  simp only [indexInsert, List.lookup, hj]
  exact lookup_filter_ne m k j h

theorem exists_named_cons_none (cs : List (Option Container)) (name : GoString) :
    (∃ c, some c ∈ none :: cs ∧ c.Name = name) ↔ ∃ c, some c ∈ cs ∧ c.Name = name := by
  constructor
  · rintro ⟨c, hc, hn⟩
    rcases List.mem_cons.mp hc with h | h
    · cases h
    · exact ⟨c, h, hn⟩
  · rintro ⟨c, hc, hn⟩
    exact ⟨c, List.mem_cons_of_mem _ hc, hn⟩

/-- What the loop of `buildIndex` stores under a name: the position of the last
entry of that name when there is one, and what was stored before otherwise. -/
theorem lookup_buildIndexFrom (cs : List (Option Container)) (name : GoString) :
    ∀ (i : Nat) (m : List (GoString × ContainerRef)),
      ((∃ c, some c ∈ cs ∧ c.Name = name) →
        ∃ k c, cs[k]? = some (some c) ∧ c.Name = name ∧
          (buildIndexFrom i cs m).lookup name = some (.entry (i + k))) ∧
      ((¬ ∃ c, some c ∈ cs ∧ c.Name = name) →
        (buildIndexFrom i cs m).lookup name = m.lookup name) := by
  induction cs with
  | nil =>
    intro i m
    constructor
    · rintro ⟨c, hc, _⟩
      cases hc
    · intro _
      rfl
  | cons x cs ih =>
    intro i m
    cases x with
    | none =>
      show (_ → ∃ k c, _ ∧ _ ∧ (buildIndexFrom (i + 1) cs m).lookup name = _) ∧
        (_ → (buildIndexFrom (i + 1) cs m).lookup name = _)
      constructor
      · intro h
        obtain ⟨k, c, hk, hn, hl⟩ := (ih (i + 1) m).1 ((exists_named_cons_none cs name).mp h)
        refine ⟨k + 1, c, by rw [List.getElem?_cons_succ]; exact hk, hn, ?_⟩
        rw [hl, Nat.add_assoc, Nat.add_comm 1 k]
      · intro h
        exact (ih (i + 1) m).2 fun h2 => h ((exists_named_cons_none cs name).mpr h2)
    | some d =>
      show (_ → ∃ k c, _ ∧ _ ∧
          (buildIndexFrom (i + 1) cs (indexInsert m d.Name (.entry i))).lookup name = _) ∧
        (_ → (buildIndexFrom (i + 1) cs (indexInsert m d.Name (.entry i))).lookup name = _)
      by_cases hrest : ∃ c, some c ∈ cs ∧ c.Name = name
      · constructor
        · intro _
          obtain ⟨k, c, hk, hn, hl⟩ := (ih (i + 1) (indexInsert m d.Name (.entry i))).1 hrest
          refine ⟨k + 1, c, by rw [List.getElem?_cons_succ]; exact hk, hn, ?_⟩
          rw [hl, Nat.add_assoc, Nat.add_comm 1 k]
        · intro h
          exact absurd (by
            obtain ⟨c, hc, hn⟩ := hrest
            exact ⟨c, List.mem_cons_of_mem _ hc, hn⟩) h
      · have hl := (ih (i + 1) (indexInsert m d.Name (.entry i))).2 hrest
        constructor
        · rintro ⟨c, hc, hn⟩
          rcases List.mem_cons.mp hc with h | h
          · have hcd : c = d := by injection h
            subst hcd
            refine ⟨0, c, List.getElem?_cons_zero, hn, ?_⟩
            rw [hl, ← hn]
            exact lookup_indexInsert_self m c.Name (.entry i)
          · exact absurd ⟨c, h, hn⟩ hrest
        · intro h
          have hne : name ≠ d.Name := by
            intro he
            exact h ⟨d, List.mem_cons_self _ _, he.symm⟩
          rw [hl]
          exact lookup_indexInsert_ne m d.Name name (.entry i) hne

/-- The index of a sequence holds a name exactly when a present entry has that
name, and then it holds the position of such an entry. -/
theorem lookup_buildIndex (cs : List (Option Container)) (name : GoString) :
    ((∃ c, some c ∈ cs ∧ c.Name = name) →
      ∃ k c, cs[k]? = some (some c) ∧ c.Name = name ∧
        (buildIndex cs).lookup name = some (.entry k)) ∧
    ((¬ ∃ c, some c ∈ cs ∧ c.Name = name) → (buildIndex cs).lookup name = none) := by
  have h := lookup_buildIndexFrom cs name 0 []
  refine ⟨fun hex => ?_, fun hn => h.2 hn⟩
  obtain ⟨k, c, hk, hn, hl⟩ := h.1 hex
  rw [Nat.zero_add] at hl
  exact ⟨k, c, hk, hn, hl⟩

/-- The index depends on the names of the entries only: a write through the
pointers that keeps every name gives the same index. -/
theorem buildIndexFrom_map (f : Container → Container) (hf : ∀ c, (f c).Name = c.Name)
    (cs : List (Option Container)) :
    ∀ (i : Nat) (m : List (GoString × ContainerRef)),
      buildIndexFrom i (cs.map fun c => c.map f) m = buildIndexFrom i cs m := by
  induction cs with
  | nil =>
    intro i m
    rfl
  | cons x cs ih =>
    intro i m
    cases x with
    | none => exact ih (i + 1) m
    | some d =>
      show buildIndexFrom (i + 1) (cs.map fun c => c.map f)
        (indexInsert m (f d).Name (.entry i)) = _
      rw [hf d]
      exact ih (i + 1) _

theorem buildIndex_updateContainers (t : Task) (f : Container → Container)
    (hf : ∀ c, (f c).Name = c.Name) :
    buildIndex (t.updateContainers f).Containers.elems = buildIndex t.Containers.elems := by
  show buildIndex (Slice.elems (t.Containers.map _)) = _
  cases hc : t.Containers with
  | none => rfl
  | some cs => exact buildIndexFrom_map f hf cs 0 []

/-- A write through the pointers of `Containers` that keeps every name, such as
a status change, keeps the index that of the sequence. -/
theorem indexValid_updateContainers (t : Task) (f : Container → Container)
    (hf : ∀ c, (f c).Name = c.Name) (h : indexValid t) : indexValid (t.updateContainers f) := by
  rcases h with h | ⟨m, hm, hl⟩
  · exact Or.inl h
  · refine Or.inr ⟨m, hm, fun name => ?_⟩
    rw [buildIndex_updateContainers t f hf]
    exact hl name

/-- A call of `ContainerByName` on a task whose index is not built yet. -/
theorem containerByName_unbuilt (t : Task) (name : GoString) (h : t.containersByName = none) :
    t.ContainerByName name
      = (match (buildIndex t.Containers.elems).lookup name with
         | some r => ((r.deref t.Containers, true),
              { t with containersByName := some (buildIndex t.Containers.elems) })
         | none => ((none, false),
              { t with containersByName := some (buildIndex t.Containers.elems) })) := by
  unfold Task.ContainerByName
  rw [h]

/-- A call of `ContainerByName` on a task whose index is built. -/
theorem containerByName_built (t : Task) (name : GoString) (m : List (GoString × ContainerRef))
    (h : t.containersByName = some m) :
    t.ContainerByName name
      = (match m.lookup name with
         | some r => ((r.deref t.Containers, true), { t with containersByName := some m })
         | none => ((none, false), { t with containersByName := some m })) := by
  unfold Task.ContainerByName
  rw [h]

/-- What a call of `ContainerByName` returns on a task whose index is unbuilt
or that of its sequence: what the index of its sequence holds under the
name. -/
theorem containerByName_eq (t : Task) (name : GoString) (h : indexValid t) :
    (t.ContainerByName name).1
      = (match (buildIndex t.Containers.elems).lookup name with
         | some r => (r.deref t.Containers, true)
         | none => (none, false)) := by
  rcases h with h | ⟨m, hm, hl⟩
  · rw [containerByName_unbuilt t name h]
    generalize (buildIndex t.Containers.elems).lookup name = q
    cases q <;> rfl
  · rw [containerByName_built t name m hm, hl name]
    generalize (buildIndex t.Containers.elems).lookup name = q
    cases q <;> rfl

/-- A call of `ContainerByName` keeps the sequence, and leaves the index that
of the sequence when it was unbuilt or that of the sequence. -/
theorem containerByName_task (t : Task) (name : GoString) (h : indexValid t) :
    (t.ContainerByName name).2.Containers = t.Containers ∧
    indexValid (t.ContainerByName name).2 := by
  rcases h with h | ⟨m, hm, hl⟩
  · rw [containerByName_unbuilt t name h]
    generalize (buildIndex t.Containers.elems).lookup name = q
    cases q <;> exact ⟨rfl, Or.inr ⟨_, rfl, fun _ => rfl⟩⟩
  · rw [containerByName_built t name m hm]
    generalize m.lookup name = q
    cases q <;> exact ⟨rfl, Or.inr ⟨m, rfl, hl⟩⟩

/-- C13 as stated fails. A lookup on a task without containers builds an empty
name index; after the container `web` is appended to `Containers` the index is
reused as it is, and `ContainerByName("web")` reports not found although a
container of the sequence is named `web`. -/
theorem C13_stale_index_counterexample :
    indexedTask.Containers = some [] ∧ indexedTask.containersByName = some [] ∧
    staleTask.Containers = some [some webContainer] ∧
    (∃ c, some c ∈ staleTask.Containers.elems ∧ c.Name = "web") ∧
    (staleTask.ContainerByName "web").1 = (none, false) :=
  ⟨rfl, rfl, rfl, ⟨webContainer, by decide, rfl⟩, by decide⟩

/-- C13, amended: on a task whose name index is not built yet or is, as a map,
the index of its current `Containers` sequence, `ContainerByName(name)`
reports found exactly when some container of the sequence has `Name` equal to
`name` (string equality, hence case sensitive), and then the container
returned is one of the sequence with that name; the call keeps the sequence
and leaves the index that of the sequence, and so does a write through the
pointers of the sequence that keeps the names, such as a status change. -/
theorem C13_container_by_name (t : Task) (name : GoString) (h : indexValid t) :
    ((t.ContainerByName name).1.2 = true ↔ ∃ c, some c ∈ t.Containers.elems ∧ c.Name = name) ∧
    ((t.ContainerByName name).1.2 = true →
      ∃ c, (t.ContainerByName name).1.1 = some c ∧ c.Name = name ∧
        some c ∈ t.Containers.elems) ∧
    ((t.ContainerByName name).1.2 = false → (t.ContainerByName name).1.1 = none) ∧
    (t.ContainerByName name).2.Containers = t.Containers ∧
    indexValid (t.ContainerByName name).2 ∧
    (∀ f : Container → Container, (∀ c, (f c).Name = c.Name) →
      indexValid (t.updateContainers f)) := by
  have ht := containerByName_task t name h
  refine ⟨?_, ?_, ?_, ht.1, ht.2, fun f hf => indexValid_updateContainers t f hf h⟩ <;>
    rw [containerByName_eq t name h]
  all_goals
    have hb := lookup_buildIndex t.Containers.elems name
    by_cases hex : ∃ c, some c ∈ t.Containers.elems ∧ c.Name = name
  · obtain ⟨k, c, hk, hn, hl⟩ := hb.1 hex
    rw [hl]
    exact ⟨fun _ => hex, fun _ => rfl⟩
  · rw [hb.2 hex]
    refine ⟨?_, fun h2 => absurd h2 hex⟩
    intro hf
    cases hf
  · obtain ⟨k, c, hk, hn, hl⟩ := hb.1 hex
    rw [hl]
    have hd : ContainerRef.deref t.Containers (.entry k) = some c := by
      show t.Containers.elems.getD k none = some c
      rw [List.getD_eq_getElem?_getD, hk]
      rfl
    exact fun _ => ⟨c, hd, hn, List.getElem?_mem hk⟩
  · rw [hb.2 hex]
    intro hf
    cases hf
  · obtain ⟨k, c, hk, hn, hl⟩ := hb.1 hex
    rw [hl]
    intro hf
    cases hf
  · rw [hb.2 hex]
    exact fun _ => rfl

/-- C13, amended, at the task `webTask`, whose index is not built yet: `web` is
found, and `Web` is not. -/
theorem C13_container_by_name_witness :
    indexValid webTask ∧
    (webTask.ContainerByName "web").1.2 = true ∧
    (webTask.ContainerByName "Web").1.2 = false ∧
    (¬ ∃ c, some c ∈ webTask.Containers.elems ∧ c.Name = "Web") :=
  ⟨Or.inl rfl, by decide, by decide,
   fun hex => absurd ((C13_container_by_name webTask "Web" (Or.inl rfl)).1.mpr hex) (by decide)⟩

/-! ## UpdateStatus -/

theorem minKnownStatus_eq_none (cs : List Container) (h : minKnownStatus cs = none) :
    cs = [] := by
  cases cs with
  | nil => rfl
  | cons d cs =>
    unfold minKnownStatus at h
    cases h2 : minKnownStatus cs <;> rw [h2] at h <;> cases h

theorem minKnownStatus_le (cs : List Container) (m : ContainerStatus)
    (h : minKnownStatus cs = some m) : ∀ c ∈ cs, m ≤ c.KnownStatus := by
  induction cs generalizing m with
  | nil => cases h
  | cons d cs ih =>
    intro c hc
    unfold minKnownStatus at h
    cases hr : minKnownStatus cs with
    | none =>
      rw [hr] at h
      have hm : d.KnownStatus = m := by injection h
      have hnil := minKnownStatus_eq_none cs hr
      subst hnil
      rcases List.mem_cons.mp hc with h1 | h1
      · rw [h1, hm]
      · cases h1
    | some m2 =>
      rw [hr] at h
      have hm : min d.KnownStatus m2 = m := by injection h
      rcases List.mem_cons.mp hc with h1 | h1
      · rw [h1, ← hm]
        exact min_le_left _ _
      · rw [← hm]
        exact le_trans (min_le_right _ _) (ih m2 hr c h1)

/-- The result of `UpdateStatus` on a task whose containers have the least
status `m`. -/
theorem updateStatus_of_min (t : Task) (m : ContainerStatus)
    (h : minKnownStatus (ownedContainers t) = some m) :
    t.UpdateStatus
      = ((decide (t.KnownStatus <
            (if (ownedContainers t).any Container.essentialFailure then max (min m TaskDead) TaskStopped
             else min m TaskDead)),
          (if (ownedContainers t).any Container.essentialFailure then max (min m TaskDead) TaskStopped
           else min m TaskDead)),
         { t with KnownStatus :=
            (if (ownedContainers t).any Container.essentialFailure then max (min m TaskDead) TaskStopped
             else min m TaskDead) }) := by
  unfold Task.UpdateStatus
  rw [h]

/-- Without an essential-container failure the task status after
`UpdateStatus` is at most the status of each owned container. -/
theorem updateStatus_le (t : Task)
    (hf : (ownedContainers t).any Container.essentialFailure = false) :
    ∀ c ∈ ownedContainers t, t.UpdateStatus.2.KnownStatus ≤ c.KnownStatus := by
  intro c hc
  cases hm : minKnownStatus (ownedContainers t) with
  | none =>
    rw [minKnownStatus_eq_none _ hm] at hc
    cases hc
  | some m =>
    rw [updateStatus_of_min t m hm]
    simp only [hf, Bool.false_eq_true, if_false]
    exact le_trans (min_le_left _ _) (minKnownStatus_le _ m hm c hc)

/-- C14 as stated fails: after a first call of `UpdateStatus` the task with an
essential container that is dead with exit code 1 and a running container is
known to be stopped, and a second call on it leaves it stopped and returns
changed = false, because the status did not advance. -/
theorem C14_previous_status_counterexample :
    stoppedFailingTask.Containers = some [some failedEssential, some runningContainer] ∧
    failedEssential.Essential = true ∧ failedEssential.KnownStatus = ContainerDead ∧
    failedEssential.KnownExitCode = some 1 ∧ runningContainer.KnownStatus = ContainerRunning ∧
    stoppedFailingTask.KnownStatus = TaskStopped ∧
    stoppedFailingTask.UpdateStatus.2.KnownStatus = TaskStopped ∧
    stoppedFailingTask.UpdateStatus.1 = (false, TaskStopped) := by
  decide

/-- C14, amended: for a task whose two containers are an essential one with
`KnownStatus = Dead` and `KnownExitCode = 1` and one with
`KnownStatus = Running`, `UpdateStatus()` sets the task `KnownStatus` to
`Stopped`, returns `Stopped` as the new status, and returns changed = true
exactly when the task `KnownStatus` was below `Stopped` before the call; and
whenever no essential-container failure applies, the task `KnownStatus` after
`UpdateStatus()` does not exceed the `KnownStatus` of any of its containers,
hence not the minimum among them. -/
theorem C14_update_status (t : Task) (c1 c2 : Container)
    (hcs : t.Containers.elems = [some c1, some c2] ∨ t.Containers.elems = [some c2, some c1])
    (he : c1.Essential = true) (hd : c1.KnownStatus = ContainerDead)
    (_hx : c1.KnownExitCode = some 1) (hr : c2.KnownStatus = ContainerRunning) :
    (t.UpdateStatus.2.KnownStatus = TaskStopped ∧ t.UpdateStatus.1.2 = TaskStopped ∧
      (t.UpdateStatus.1.1 = true ↔ t.KnownStatus < TaskStopped)) ∧
    (∀ u : Task, (ownedContainers u).any Container.essentialFailure = false →
      ∀ c ∈ ownedContainers u, u.UpdateStatus.2.KnownStatus ≤ c.KnownStatus) := by
  refine ⟨?_, fun u hf => updateStatus_le u hf⟩
  have hfail : c1.essentialFailure = true := by
    unfold Container.essentialFailure
    rw [he, hd]
    rfl
  have hany : (ownedContainers t).any Container.essentialFailure = true := by
    unfold ownedContainers
    rcases hcs with h | h <;> rw [h] <;> simp [hfail]
  have hmin : minKnownStatus (ownedContainers t) = some ContainerRunning := by
    unfold ownedContainers
    rcases hcs with h | h <;> rw [h] <;>
      simp only [List.filterMap_cons, List.filterMap_nil, id, minKnownStatus, hd, hr] <;> rfl
  have hs : max (min ContainerRunning TaskDead) TaskStopped = TaskStopped := by decide
  rw [updateStatus_of_min t _ hmin]
  simp only [hany, if_true, hs, decide_eq_true_eq, and_self, true_and]

/-- C14, amended, at the running task `failingTask`. -/
theorem C14_update_status_witness :
    failingTask.UpdateStatus.2.KnownStatus = TaskStopped ∧
    failingTask.UpdateStatus.1.2 = TaskStopped ∧
    (failingTask.UpdateStatus.1.1 = true ↔ failingTask.KnownStatus < TaskStopped) :=
  (C14_update_status failingTask failedEssential runningContainer (Or.inl rfl) rfl rfl rfl rfl).1

/-! ## Lemmas on the decoder -/

/-- What one entry of a serialized container does to the target: the key
selects the field of the same JSON name, and the value is decoded by the type
of that field. One lemma per key. -/
theorem decodeEntry_Name (u : Unmarshalers) (c : Container) (v : Json) :
    decodeEntry Container.fields (Container.decodeField u) c ("Name", v)
      = (decodeString c.Name v).map fun x => { c with Name := x } := rfl

theorem decodeEntry_Image (u : Unmarshalers) (c : Container) (v : Json) :
    decodeEntry Container.fields (Container.decodeField u) c ("Image", v)
      = (decodeString c.Image v).map fun x => { c with Image := x } := rfl

theorem decodeEntry_Command (u : Unmarshalers) (c : Container) (v : Json) :
    decodeEntry Container.fields (Container.decodeField u) c ("Command", v)
      = (decodeSlice "" decodeString c.Command v).map fun x => { c with Command := x } := rfl

theorem decodeEntry_Cpu (u : Unmarshalers) (c : Container) (v : Json) :
    decodeEntry Container.fields (Container.decodeField u) c ("Cpu", v)
      = (decodeUint 64 c.Cpu v).map fun x => { c with Cpu := x } := rfl

theorem decodeEntry_Memory (u : Unmarshalers) (c : Container) (v : Json) :
    decodeEntry Container.fields (Container.decodeField u) c ("Memory", v)
      = (decodeUint 64 c.Memory v).map fun x => { c with Memory := x } := rfl

theorem decodeEntry_Links (u : Unmarshalers) (c : Container) (v : Json) :
    decodeEntry Container.fields (Container.decodeField u) c ("Links", v)
      = (decodeSlice "" decodeString c.Links v).map fun x => { c with Links := x } := rfl

theorem decodeEntry_VolumesFrom (u : Unmarshalers) (c : Container) (v : Json) :
    decodeEntry Container.fields (Container.decodeField u) c ("volumesFrom", v)
      = (decodeSlice VolumeFrom.zero VolumeFrom.UnmarshalJSON c.VolumesFrom v).map fun x => { c with VolumesFrom := x } := rfl

theorem decodeEntry_Ports (u : Unmarshalers) (c : Container) (v : Json) :
    decodeEntry Container.fields (Container.decodeField u) c ("portMappings", v)
      = (decodeSlice PortBinding.zero PortBinding.UnmarshalJSON c.Ports v).map fun x => { c with Ports := x } := rfl

theorem decodeEntry_Essential (u : Unmarshalers) (c : Container) (v : Json) :
    decodeEntry Container.fields (Container.decodeField u) c ("Essential", v)
      = (decodeBool c.Essential v).map fun x => { c with Essential := x } := rfl

theorem decodeEntry_EntryPoint (u : Unmarshalers) (c : Container) (v : Json) :
    decodeEntry Container.fields (Container.decodeField u) c ("EntryPoint", v)
      = (decodePtr none (decodeSlice "" decodeString) c.EntryPoint v).map fun x => { c with EntryPoint := x } := rfl

theorem decodeEntry_Environment (u : Unmarshalers) (c : Container) (v : Json) :
    decodeEntry Container.fields (Container.decodeField u) c ("environment", v)
      = (decodeMap c.Environment v).map fun x => { c with Environment := x } := rfl

theorem decodeEntry_Overrides (u : Unmarshalers) (c : Container) (v : Json) :
    decodeEntry Container.fields (Container.decodeField u) c ("overrides", v)
      = (c.Overrides.UnmarshalJSON v).map fun x => { c with Overrides := x } := rfl

theorem decodeEntry_DesiredStatus (u : Unmarshalers) (c : Container) (v : Json) :
    decodeEntry Container.fields (Container.decodeField u) c ("desiredStatus", v)
      = (u.containerStatus c.DesiredStatus v).map fun x => { c with DesiredStatus := x } := rfl

theorem decodeEntry_KnownStatus (u : Unmarshalers) (c : Container) (v : Json) :
    decodeEntry Container.fields (Container.decodeField u) c ("KnownStatus", v)
      = (u.containerStatus c.KnownStatus v).map fun x => { c with KnownStatus := x } := rfl

theorem decodeEntry_AppliedStatus (u : Unmarshalers) (c : Container) (v : Json) :
    decodeEntry Container.fields (Container.decodeField u) c ("AppliedStatus", v)
      = (u.containerStatus c.AppliedStatus v).map fun x => { c with AppliedStatus := x } := rfl

theorem decodeEntry_ApplyingError (u : Unmarshalers) (c : Container) (v : Json) :
    decodeEntry Container.fields (Container.decodeField u) c ("ApplyingError", v)
      = (decodeError c.ApplyingError v).map fun x => { c with ApplyingError := x } := rfl

theorem decodeEntry_SentStatus (u : Unmarshalers) (c : Container) (v : Json) :
    decodeEntry Container.fields (Container.decodeField u) c ("SentStatus", v)
      = (u.containerStatus c.SentStatus v).map fun x => { c with SentStatus := x } := rfl

theorem decodeEntry_KnownExitCode (u : Unmarshalers) (c : Container) (v : Json) :
    decodeEntry Container.fields (Container.decodeField u) c ("KnownExitCode", v)
      = (decodePtr 0 (decodeInt 64) c.KnownExitCode v).map fun x => { c with KnownExitCode := x } := rfl

theorem decodeEntry_KnownPortBindings (u : Unmarshalers) (c : Container) (v : Json) :
    decodeEntry Container.fields (Container.decodeField u) c ("KnownPortBindings", v)
      = (decodeSlice PortBinding.zero PortBinding.UnmarshalJSON c.KnownPortBindings v).map fun x => { c with KnownPortBindings := x } := rfl

theorem decodeEntry_StatusLock (u : Unmarshalers) (c : Container) (v : Json) :
    decodeEntry Container.fields (Container.decodeField u) c ("StatusLock", v)
      = (c.StatusLock.UnmarshalJSON v).map fun x => { c with StatusLock := x } := rfl
theorem mapM_decode_ok {α β : Type} (f : α → Decoded β) (g : α → β)
    (h : ∀ x, f x = .ok (g x)) (xs : List α) : xs.mapM f = .ok (xs.map g) := by
  induction xs with
  | nil => rfl
  | cons x xs ih =>
    simp only [List.mapM_cons, h, ih, List.map_cons]
    rfl

/-- Decoding the documents written for the elements of a list, when the
decoder gives `g x` on the document of each element `x`. -/
theorem mapM_decode_map {α : Type} (enc : α → Json) (dec : Json → Decoded α) (g : α → α)
    (xs : List α) (h : ∀ x ∈ xs, dec (enc x) = .ok (g x)) :
    (xs.map enc).mapM dec = .ok (xs.map g) := by
  induction xs with
  | nil => rfl
  | cons x xs ih =>
    simp only [List.map_cons, List.mapM_cons, h x (List.mem_cons_self _ _),
      ih (fun y hy => h y (List.mem_cons_of_mem _ hy))]
    rfl

theorem map_eq_self {α : Type} (g : α → α) (xs : List α) (h : ∀ x ∈ xs, g x = x) :
    xs.map g = xs := by
  induction xs with
  | nil => rfl
  | cons x xs ih =>
    rw [List.map_cons, h x (List.mem_cons_self _ _),
      ih fun y hy => h y (List.mem_cons_of_mem _ hy)]

/-- An array decoded into a nil slice: its elements, each decoded onto the
zero value. -/
theorem decodeSlice_nil_arr {α : Type} (zero : α) (dec : α → Json → Decoded α)
    (items : List Json) :
    decodeSlice zero dec none (.arr items) = (items.mapM (dec zero)).map some := by
  cases items <;> rfl

theorem reread_valid (s : GoString) (h : validUTF8 s) : reread s = s := by
  unfold reread
  unfold validUTF8 at h
  rw [h, h]

theorem decode_strings (s : Slice GoString) :
    decodeSlice "" decodeString none (stringsJson s) = .ok (s.map fun xs => xs.map reread) := by
  cases s with
  | none => rfl
  | some xs =>
    simp only [stringsJson, decodeSlice_nil_arr, mapM_decode_map stringJson (decodeString "")
      reread xs (fun _ _ => rfl)]
    rfl

theorem decode_strings_valid (s : Slice GoString) (h : stringsValid s) :
    decodeSlice "" decodeString none (stringsJson s) = .ok s := by
  rw [decode_strings]
  cases s with
  | none => rfl
  | some xs =>
    show Except.ok (some (xs.map reread)) = _
    rw [map_eq_self reread xs fun x hx => reread_valid x (h x hx)]

theorem decode_command (p : Option (Slice GoString)) (h : p ≠ some none)
    (hv : ∀ s, p = some s → stringsValid s) :
    decodePtr none (decodeSlice "" decodeString) none (commandJson p) = .ok p := by
  cases p with
  | none => rfl
  | some s =>
    cases s with
    | none => exact absurd rfl h
    | some xs =>
      show (decodeSlice "" decodeString none (stringsJson (some xs))).map some = _
      rw [decode_strings_valid _ (hv _ rfl)]
      rfl

theorem decode_command_ok (p : Option (Slice GoString)) :
    ∃ r, decodePtr none (decodeSlice "" decodeString) none (commandJson p) = .ok r := by
  cases p with
  | none => exact ⟨none, rfl⟩
  | some s =>
    cases s with
    | none => exact ⟨none, rfl⟩
    | some xs =>
      refine ⟨some (some (xs.map reread)), ?_⟩
      show (decodeSlice "" decodeString none (stringsJson (some xs))).map some = _
      rw [decode_strings]
      rfl

theorem decode_volumesFrom (s : Slice VolumeFrom) :
    decodeSlice VolumeFrom.zero VolumeFrom.UnmarshalJSON none (volumesFromJson s)
      = .ok (s.map fun xs => xs.map fun v =>
          { SourceContainer := reread v.SourceContainer, ReadOnly := v.ReadOnly }) := by
  cases s with
  | none => rfl
  | some xs =>
    simp only [volumesFromJson, decodeSlice_nil_arr, mapM_decode_map
      (fun v : VolumeFrom =>
        Json.obj [("sourceContainer", stringJson v.SourceContainer),
          ("readOnly", .bool v.ReadOnly)])
      (VolumeFrom.UnmarshalJSON VolumeFrom.zero)
      (fun v => { SourceContainer := reread v.SourceContainer, ReadOnly := v.ReadOnly })
      xs (fun _ _ => rfl)]
    rfl

theorem decode_uint (bits cur n : Nat) (h : n < 2 ^ bits) :
    decodeUint bits cur (.num n) = .ok n := by
  have h2 : (0 : Int) ≤ (n : Int) ∧ (n : Int) < 2 ^ bits := by
    constructor
    · exact Int.ofNat_nonneg n
    · exact_mod_cast h
  simp only [decodeUint, h2, and_self, if_true, Int.toNat_ofNat]

theorem decodeEntry_ContainerPort (q : PortBinding) (v : Json) :
    decodeEntry PortBinding.fields PortBinding.decodeField q ("ContainerPort", v)
      = (decodeUint 16 q.ContainerPort v).map fun x => { q with ContainerPort := x } := rfl

theorem decodeEntry_HostPort (q : PortBinding) (v : Json) :
    decodeEntry PortBinding.fields PortBinding.decodeField q ("HostPort", v)
      = (decodeUint 16 q.HostPort v).map fun x => { q with HostPort := x } := rfl

theorem decodeEntry_BindIp (q : PortBinding) (v : Json) :
    decodeEntry PortBinding.fields PortBinding.decodeField q ("BindIp", v)
      = (decodeString q.BindIp v).map fun x => { q with BindIp := x } := rfl

/-- Decoding of a port binding from an object with its three keys, given what
the field decoders return on the three values. -/
theorem decode_portBinding_entries (q : PortBinding) (v1 v2 v3 : Json) (a b : Nat)
    (s : GoString) (h1 : ∀ cur, decodeUint 16 cur v1 = .ok a)
    (h2 : ∀ cur, decodeUint 16 cur v2 = .ok b) (h3 : ∀ cur, decodeString cur v3 = .ok s) :
    PortBinding.UnmarshalJSON q
      (.obj [("ContainerPort", v1), ("HostPort", v2), ("BindIp", v3)])
      = .ok { ContainerPort := a, HostPort := b, BindIp := s } := by
  unfold PortBinding.UnmarshalJSON decodeStruct
  simp only [List.foldlM_cons, List.foldlM_nil, decodeEntry_ContainerPort, decodeEntry_HostPort,
    decodeEntry_BindIp, h1, h2, h3, Except.map, bind, Except.bind, pure, Except.pure]

theorem decode_portBinding (p : PortBinding)
    (h : p.ContainerPort < 2 ^ 16 ∧ p.HostPort < 2 ^ 16) :
    PortBinding.UnmarshalJSON PortBinding.zero
      (.obj [("ContainerPort", .num p.ContainerPort), ("HostPort", .num p.HostPort),
             ("BindIp", stringJson p.BindIp)])
      = .ok { ContainerPort := p.ContainerPort, HostPort := p.HostPort,
              BindIp := reread p.BindIp } :=
  decode_portBinding_entries PortBinding.zero _ _ _ p.ContainerPort p.HostPort (reread p.BindIp)
    (fun cur => decode_uint 16 cur _ h.1) (fun cur => decode_uint 16 cur _ h.2) (fun _ => rfl)

theorem decode_ports (s : Slice PortBinding) (h : portsInRange s) :
    decodeSlice PortBinding.zero PortBinding.UnmarshalJSON none (portsJson s)
      = .ok (s.map fun xs => xs.map fun p =>
          { ContainerPort := p.ContainerPort, HostPort := p.HostPort,
            BindIp := reread p.BindIp }) := by
  cases s with
  | none => rfl
  | some xs =>
    simp only [portsJson, decodeSlice_nil_arr, mapM_decode_map
      (fun p : PortBinding =>
        Json.obj [("ContainerPort", .num p.ContainerPort), ("HostPort", .num p.HostPort),
                  ("BindIp", stringJson p.BindIp)])
      (PortBinding.UnmarshalJSON PortBinding.zero)
      (fun p => { ContainerPort := p.ContainerPort, HostPort := p.HostPort,
                  BindIp := reread p.BindIp })
      xs (fun p hp => decode_portBinding p (h p hp))]
    rfl

theorem decode_ports_valid (s : Slice PortBinding) (h : portsInRange s)
    (hv : ∀ p ∈ s.elems, validUTF8 p.BindIp) :
    decodeSlice PortBinding.zero PortBinding.UnmarshalJSON none (portsJson s) = .ok s := by
  rw [decode_ports s h]
  cases s with
  | none => rfl
  | some xs =>
    show Except.ok (some (xs.map _)) = _
    rw [map_eq_self _ xs fun p hp => by rw [reread_valid p.BindIp (hv p hp)]]

theorem decode_exitCode (cur x : Option Int)
    (h : ∀ code, x = some code → -(2 ^ 63) ≤ code ∧ code < 2 ^ 63) :
    decodePtr 0 (decodeInt 64) cur (exitCodeJson x) = .ok x := by
  cases x with
  | none => rfl
  | some code =>
    have hc := h code rfl
    show (decodeInt 64 (cur.getD 0) (.num code)).map some = _
    simp only [decodeInt, Nat.add_one_sub_one, hc, and_self, if_true, Except.map]
theorem mapAssign_new (m : List (GoString × GoString)) (k v : GoString)
    (h : k ∉ m.map Prod.fst) : mapAssign m k v = m ++ [(k, v)] := by
  have hany : (m.any fun e => e.1 == k) = false := by
    rw [Bool.eq_false_iff]
    intro ht
    obtain ⟨e, he, hk⟩ := List.any_eq_true.mp ht
    have : e.1 = k := by simpa using hk
    exact h (this ▸ List.mem_map_of_mem Prod.fst he)
  simp only [mapAssign, hany, Bool.false_eq_true, if_false]

theorem decodeMap_fold (l acc : List (GoString × GoString))
    (h : ((acc ++ l).map Prod.fst).Nodup) (hv : ∀ kv ∈ l, validUTF8 kv.1 ∧ validUTF8 kv.2) :
    (l.map fun kv => (coerceUTF8 kv.1, stringJson kv.2)).foldlM
        (fun m (kv : GoString × Json) =>
          (decodeString "" kv.2).map fun v => mapAssign m (coerceUTF8 kv.1) v) acc
      = .ok (acc ++ l) := by
  induction l generalizing acc with
  | nil => simp only [List.map_nil, List.foldlM_nil, List.append_nil]; rfl
  | cons e l ih =>
    obtain ⟨k, v⟩ := e
    have hk : k ∉ acc.map Prod.fst := by
      intro hmem
      rw [List.map_append, List.map_cons] at h
      have := (List.nodup_append.mp h).2.2
      exact this hmem (List.mem_cons_self _ _)
    have h2 : (((acc ++ [(k, v)]) ++ l).map Prod.fst).Nodup := by
      simpa [List.append_assoc] using h
    have hkv := hv (k, v) (List.mem_cons_self _ _)
    have hstep : ((decodeString "" (stringJson v)).map
        fun x => mapAssign acc (coerceUTF8 (coerceUTF8 k)) x) = .ok (acc ++ [(k, v)]) := by
      show Except.ok (mapAssign acc (reread k) (reread v)) = _
      rw [reread_valid k hkv.1, reread_valid v hkv.2, mapAssign_new acc k v hk]
    simp only [List.map_cons, List.foldlM_cons, hstep, bind, Except.bind]
    rw [ih (acc ++ [(k, v)]) h2 fun kv hkv2 => hv kv (List.mem_cons_of_mem _ hkv2),
      List.append_assoc]
    rfl

theorem decode_environment (e : Option (List (GoString × GoString)))
    (h : ∀ kvs, e = some kvs → (kvs.map Prod.fst).Nodup)
    (hv : ∀ kvs, e = some kvs → ∀ kv ∈ kvs, validUTF8 kv.1 ∧ validUTF8 kv.2) :
    decodeMap none (environmentJson e)
      = .ok (e.map fun kvs => kvs.insertionSort fun a b => a.1 ≤ b.1) := by
  cases e with
  | none => rfl
  | some kvs =>
    have hn : ((([] : List (GoString × GoString)) ++ kvs.insertionSort fun a b => a.1 ≤ b.1).map
        Prod.fst).Nodup := by
      rw [List.nil_append]
      exact ((List.perm_insertionSort _ kvs).map Prod.fst).nodup_iff.mpr (h kvs rfl)
    show Except.map some (List.foldlM
      (fun m (kv : GoString × Json) =>
        (decodeString "" kv.2).map fun v => mapAssign m (coerceUTF8 kv.1) v) []
      ((kvs.insertionSort fun a b => a.1 ≤ b.1).map fun kv =>
        (coerceUTF8 kv.1, stringJson kv.2))) = _
    rw [decodeMap_fold _ [] hn fun kv hkv =>
      hv kvs rfl kv ((List.perm_insertionSort _ kvs).mem_iff.mp hkv)]
    rfl

theorem sameMap_sorted (e : Option (List (GoString × GoString))) :
    sameMap (e.map fun kvs => kvs.insertionSort fun a b => a.1 ≤ b.1) e := by
  cases e with
  | none => trivial
  | some kvs => exact List.perm_insertionSort _ kvs

theorem decodeEntry_command (o : ContainerOverrides) (v : Json) :
    decodeEntry ContainerOverrides.fields ContainerOverrides.decodeField o ("command", v)
      = (decodePtr none (decodeSlice "" decodeString) o.Command v).map fun x =>
          { o with Command := x } := rfl

theorem decode_overrides_entries (o : ContainerOverrides) (v : Json) (p : Option (Slice GoString))
    (h : decodePtr none (decodeSlice "" decodeString) o.Command v = .ok p) :
    ContainerOverrides.UnmarshalJSON o (.obj [("command", v)]) = .ok { Command := p } := by
  unfold ContainerOverrides.UnmarshalJSON decodeStruct
  simp only [List.foldlM_cons, List.foldlM_nil, decodeEntry_command, h, Except.map, bind,
    Except.bind, pure, Except.pure]

theorem decode_overrides (o : ContainerOverrides) (h : o.Command ≠ some none)
    (hv : ∀ s, o.Command = some s → stringsValid s) :
    ContainerOverrides.UnmarshalJSON { Command := none }
      (.obj [("command", commandJson o.Command)]) = .ok o :=
  decode_overrides_entries { Command := none } _ o.Command (decode_command o.Command h hv)

/-- Decoding of a container from an object with the twenty keys of a
serialized container, in order, given what the field decoders return on the
twenty values. -/
theorem decode_container_entries (u : Unmarshalers) (c0 : Container)
    (v1 v2 v3 v4 v5 v6 v7 v8 v9 v10 v11 v12 v13 v14 v15 v16 v17 v18 v19 v20 : Json)
    (x1 : GoString) (h1 : decodeString c0.Name v1 = .ok x1)
    (x2 : GoString) (h2 : decodeString c0.Image v2 = .ok x2)
    (x3 : Slice GoString) (h3 : decodeSlice "" decodeString c0.Command v3 = .ok x3)
    (x4 : Nat) (h4 : decodeUint 64 c0.Cpu v4 = .ok x4)
    (x5 : Nat) (h5 : decodeUint 64 c0.Memory v5 = .ok x5)
    (x6 : Slice GoString) (h6 : decodeSlice "" decodeString c0.Links v6 = .ok x6)
    (x7 : Slice VolumeFrom) (h7 : decodeSlice VolumeFrom.zero VolumeFrom.UnmarshalJSON c0.VolumesFrom v7 = .ok x7)
    (x8 : Slice PortBinding) (h8 : decodeSlice PortBinding.zero PortBinding.UnmarshalJSON c0.Ports v8 = .ok x8)
    (x9 : Bool) (h9 : decodeBool c0.Essential v9 = .ok x9)
    (x10 : Option (Slice GoString)) (h10 : decodePtr none (decodeSlice "" decodeString) c0.EntryPoint v10 = .ok x10)
    (x11 : Option (List (GoString × GoString))) (h11 : decodeMap c0.Environment v11 = .ok x11)
    (x12 : ContainerOverrides) (h12 : c0.Overrides.UnmarshalJSON v12 = .ok x12)
    (x13 : ContainerStatus) (h13 : u.containerStatus c0.DesiredStatus v13 = .ok x13)
    (x14 : ContainerStatus) (h14 : u.containerStatus c0.KnownStatus v14 = .ok x14)
    (x15 : ContainerStatus) (h15 : u.containerStatus c0.AppliedStatus v15 = .ok x15)
    (x16 : Option GoError) (h16 : decodeError c0.ApplyingError v16 = .ok x16)
    (x17 : ContainerStatus) (h17 : u.containerStatus c0.SentStatus v17 = .ok x17)
    (x18 : Option Int) (h18 : decodePtr 0 (decodeInt 64) c0.KnownExitCode v18 = .ok x18)
    (x19 : Slice PortBinding) (h19 : decodeSlice PortBinding.zero PortBinding.UnmarshalJSON c0.KnownPortBindings v19 = .ok x19)
    (x20 : Mutex) (h20 : c0.StatusLock.UnmarshalJSON v20 = .ok x20) :
    decodeStruct Container.fields (Container.decodeField u) c0
      (.obj
      [("Name", v1),
       ("Image", v2),
       ("Command", v3),
       ("Cpu", v4),
       ("Memory", v5),
       ("Links", v6),
       ("volumesFrom", v7),
       ("portMappings", v8),
       ("Essential", v9),
       ("EntryPoint", v10),
       ("environment", v11),
       ("overrides", v12),
       ("desiredStatus", v13),
       ("KnownStatus", v14),
       ("AppliedStatus", v15),
       ("ApplyingError", v16),
       ("SentStatus", v17),
       ("KnownExitCode", v18),
       ("KnownPortBindings", v19),
       ("StatusLock", v20)])
      = .ok
        { Name := x1,
          Image := x2,
          Command := x3,
          Cpu := x4,
          Memory := x5,
          Links := x6,
          VolumesFrom := x7,
          Ports := x8,
          Essential := x9,
          EntryPoint := x10,
          Environment := x11,
          Overrides := x12,
          DesiredStatus := x13,
          KnownStatus := x14,
          AppliedStatus := x15,
          ApplyingError := x16,
          SentStatus := x17,
          KnownExitCode := x18,
          KnownPortBindings := x19,
          StatusLock := x20 } := by
  unfold decodeStruct
  simp only [List.foldlM_cons, List.foldlM_nil, decodeEntry_Name, decodeEntry_Image, decodeEntry_Command, decodeEntry_Cpu, decodeEntry_Memory, decodeEntry_Links, decodeEntry_VolumesFrom, decodeEntry_Ports, decodeEntry_Essential, decodeEntry_EntryPoint, decodeEntry_Environment, decodeEntry_Overrides, decodeEntry_DesiredStatus, decodeEntry_KnownStatus, decodeEntry_AppliedStatus, decodeEntry_ApplyingError, decodeEntry_SentStatus, decodeEntry_KnownExitCode, decodeEntry_KnownPortBindings, decodeEntry_StatusLock,
    h1, h2, h3, h4, h5, h6, h7, h8, h9, h10, h11, h12, h13, h14, h15, h16, h17, h18, h19, h20, Except.map, bind, Except.bind, pure, Except.pure]
theorem encode_exitCode (x : Option Int) : encodePtr encodeInt x = .ok (exitCodeJson x) := by
  cases x <;> rfl

/-- The serialized form of a container, given the documents written for its
four statuses and its error. -/
theorem container_marshal_eq (m : Marshalers) (c : Container) (d k a e s : Json)
    (hd : m.containerStatus c.DesiredStatus = .ok d) (hk : m.containerStatus c.KnownStatus = .ok k)
    (ha : m.containerStatus c.AppliedStatus = .ok a)
    (he : encodePtr m.error c.ApplyingError = .ok e)
    (hs : m.containerStatus c.SentStatus = .ok s) :
    Container.MarshalJSON m c
      = .ok (.obj
        [("Name", stringJson c.Name), ("Image", stringJson c.Image),
         ("Command", stringsJson c.Command),
         ("Cpu", .num c.Cpu), ("Memory", .num c.Memory), ("Links", stringsJson c.Links),
         ("volumesFrom", volumesFromJson c.VolumesFrom), ("portMappings", portsJson c.Ports),
         ("Essential", .bool c.Essential), ("EntryPoint", commandJson c.EntryPoint),
         ("environment", environmentJson c.Environment),
         ("overrides", .obj [("command", commandJson c.Overrides.Command)]),
         ("desiredStatus", d), ("KnownStatus", k), ("AppliedStatus", a), ("ApplyingError", e),
         ("SentStatus", s), ("KnownExitCode", exitCodeJson c.KnownExitCode),
         ("KnownPortBindings", portsJson c.KnownPortBindings), ("StatusLock", .obj [])]) := by
  have h : Container.jsonFields m c =
      [(⟨"Name", ""⟩, .ok (stringJson c.Name)),
       (⟨"Image", ""⟩, .ok (stringJson c.Image)),
       (⟨"Command", ""⟩, .ok (stringsJson c.Command)),
       (⟨"Cpu", ""⟩, .ok (.num c.Cpu)),
       (⟨"Memory", ""⟩, .ok (.num c.Memory)),
       (⟨"Links", ""⟩, .ok (stringsJson c.Links)),
       (⟨"VolumesFrom", "volumesFrom"⟩, .ok (volumesFromJson c.VolumesFrom)),
       (⟨"Ports", "portMappings"⟩, .ok (portsJson c.Ports)),
       (⟨"Essential", ""⟩, .ok (.bool c.Essential)),
       (⟨"EntryPoint", ""⟩, .ok (commandJson c.EntryPoint)),
       (⟨"Environment", "environment"⟩, .ok (environmentJson c.Environment)),
       (⟨"Overrides", "overrides"⟩, .ok (.obj [("command", commandJson c.Overrides.Command)])),
       (⟨"DesiredStatus", "desiredStatus"⟩, .ok d),
       (⟨"KnownStatus", ""⟩, .ok k),
       (⟨"AppliedStatus", ""⟩, .ok a),
       (⟨"ApplyingError", ""⟩, .ok e),
       (⟨"SentStatus", ""⟩, .ok s),
       (⟨"KnownExitCode", ""⟩, .ok (exitCodeJson c.KnownExitCode)),
       (⟨"KnownPortBindings", ""⟩, .ok (portsJson c.KnownPortBindings)),
       (⟨"StatusLock", ""⟩, .ok (.obj []))] := by
    unfold Container.jsonFields
    rw [hd, hk, ha, he, hs, encodeSlice_strings, encodeSlice_strings, encodeSlice_volumesFrom,
      encodeSlice_ports, encodeSlice_ports, encodePtr_command, encodeMap_environment,
      overrides_marshal, encode_exitCode]
    rfl
  unfold Container.MarshalJSON
  rw [h]
  rfl

/-- A container that serializes has the twenty-key form, with some documents
for its four statuses and its error. -/
theorem container_marshal_shape (m : Marshalers) (c : Container) (j : Json)
    (h : Container.MarshalJSON m c = .ok j) :
    ∃ d k a e s, m.containerStatus c.DesiredStatus = .ok d ∧
      m.containerStatus c.KnownStatus = .ok k ∧ m.containerStatus c.AppliedStatus = .ok a ∧
      encodePtr m.error c.ApplyingError = .ok e ∧ m.containerStatus c.SentStatus = .ok s ∧
      j = .obj
        [("Name", stringJson c.Name), ("Image", stringJson c.Image),
         ("Command", stringsJson c.Command),
         ("Cpu", .num c.Cpu), ("Memory", .num c.Memory), ("Links", stringsJson c.Links),
         ("volumesFrom", volumesFromJson c.VolumesFrom), ("portMappings", portsJson c.Ports),
         ("Essential", .bool c.Essential), ("EntryPoint", commandJson c.EntryPoint),
         ("environment", environmentJson c.Environment),
         ("overrides", .obj [("command", commandJson c.Overrides.Command)]),
         ("desiredStatus", d), ("KnownStatus", k), ("AppliedStatus", a), ("ApplyingError", e),
         ("SentStatus", s), ("KnownExitCode", exitCodeJson c.KnownExitCode),
         ("KnownPortBindings", portsJson c.KnownPortBindings), ("StatusLock", .obj [])] := by
  obtain ⟨d, hd, _⟩ := container_get m c j h ⟨"DesiredStatus", "desiredStatus"⟩
    (m.containerStatus c.DesiredStatus) "desiredStatus" (by simp [Container.jsonFields]) rfl
  obtain ⟨k, hk, _⟩ := container_get m c j h ⟨"KnownStatus", ""⟩
    (m.containerStatus c.KnownStatus) "KnownStatus" (by simp [Container.jsonFields]) rfl
  obtain ⟨a, ha, _⟩ := container_get m c j h ⟨"AppliedStatus", ""⟩
    (m.containerStatus c.AppliedStatus) "AppliedStatus" (by simp [Container.jsonFields]) rfl
  obtain ⟨e, he, _⟩ := container_get m c j h ⟨"ApplyingError", ""⟩
    (encodePtr m.error c.ApplyingError) "ApplyingError" (by simp [Container.jsonFields]) rfl
  obtain ⟨s, hs, _⟩ := container_get m c j h ⟨"SentStatus", ""⟩
    (m.containerStatus c.SentStatus) "SentStatus" (by simp [Container.jsonFields]) rfl
  refine ⟨d, k, a, e, s, hd, hk, ha, he, hs, ?_⟩
  have h2 := container_marshal_eq m c d k a e s hd hk ha he hs
  rw [h] at h2
  injection h2
/-! ## Round trip through the serialized form -/

/-- C11 as stated fails: a container with an error recorded serializes, but
the result cannot be deserialized, because no document other than `null` can
be stored in a field of the interface type `error`; a container whose
override command points to a nil slice comes back with a nil override
command; and a container whose `Name` is the byte FF, which is no well-formed
UTF-8, comes back under the name U+FFFD (bytes EF BF BD). -/
theorem C11_round_trip_counterexample :
    (∃ j, Container.MarshalJSON sampleMarshalers erroredContainer = .ok j ∧
      ∃ e, Container.UnmarshalJSON sampleUnmarshalers j = .error (.failed e)) ∧
    (∃ j, Container.MarshalJSON sampleMarshalers nilCommandContainer = .ok j ∧
      ∃ c2, Container.UnmarshalJSON sampleUnmarshalers j = .ok c2 ∧
        c2.Overrides.Command = none ∧ nilCommandContainer.Overrides.Command = some none) ∧
    (∃ j, Container.MarshalJSON sampleMarshalers invalidNameContainer = .ok j ∧
      ∃ c2, Container.UnmarshalJSON sampleUnmarshalers j = .ok c2 ∧
        c2.Name = "\xef\xbf\xbd" ∧ invalidNameContainer.Name = "\xff" ∧
        c2.Name ≠ invalidNameContainer.Name) :=
  ⟨⟨_, rfl, _, rfl⟩, ⟨_, rfl, _, rfl, rfl, rfl⟩, ⟨_, rfl, _, rfl, rfl, rfl, by decide⟩⟩

/-- C11, amended: for a container that serializes, whose `ApplyingError` is
absent, whose override command is absent or points to a non-nil slice, and
whose strings in `Name`, `Image`, `Ports`, `Environment` and
`Overrides.Command` are well-formed UTF-8, deserializing the serialized form
into a new container (with a status decoder that accepts what the status
encoder writes) succeeds and yields a container with the same `Name`, `Image`,
`Ports`, `Environment` and `Overrides.Command`, whatever the other fields
are. -/
theorem C11_round_trip (m : Marshalers) (u : Unmarshalers) (c : Container) (j : Json)
    (hj : Container.MarshalJSON m c = .ok j) (hu : statusCodecsAgree m u)
    (hw : c.wellTyped) (he : c.ApplyingError = none) (hc : c.Overrides.Command ≠ some none)
    (ht : c.textValid) :
    ∃ c2, Container.UnmarshalJSON u j = .ok c2 ∧ c2.Name = c.Name ∧ c2.Image = c.Image ∧
      c2.Ports = c.Ports ∧ sameMap c2.Environment c.Environment ∧
      c2.Overrides.Command = c.Overrides.Command := by
  obtain ⟨d, k, a, e, s, hd, hk, ha, hee, hs, rfl⟩ := container_marshal_shape m c j hj
  obtain ⟨hcpu, hmem, hports, hkports, hexit, henv, rd, rk, ra, rs⟩ := hw
  obtain ⟨d2, hd2⟩ := hu c.DesiredStatus Container.zero.DesiredStatus d rd hd
  obtain ⟨k2, hk2⟩ := hu c.KnownStatus Container.zero.KnownStatus k rk hk
  obtain ⟨a2, ha2⟩ := hu c.AppliedStatus Container.zero.AppliedStatus a ra ha
  obtain ⟨s2, hs2⟩ := hu c.SentStatus Container.zero.SentStatus s rs hs
  obtain ⟨tn, ti, tp, te, tc⟩ := ht
  obtain ⟨ep, hep⟩ := decode_command_ok c.EntryPoint
  have hnull : e = .null := by
    rw [he] at hee
    have : encodePtr m.error none = .ok Json.null := rfl
    rw [this] at hee
    injection hee with hee
    exact hee.symm
  subst hnull
  have hdec := decode_container_entries u Container.zero
    (stringJson c.Name) (stringJson c.Image) (stringsJson c.Command) (.num c.Cpu) (.num c.Memory)
    (stringsJson c.Links) (volumesFromJson c.VolumesFrom) (portsJson c.Ports)
    (.bool c.Essential) (commandJson c.EntryPoint) (environmentJson c.Environment)
    (.obj [("command", commandJson c.Overrides.Command)]) d k a .null s
    (exitCodeJson c.KnownExitCode) (portsJson c.KnownPortBindings) (.obj [])
    c.Name (congrArg Except.ok (reread_valid c.Name tn))
    c.Image (congrArg Except.ok (reread_valid c.Image ti))
    _ (decode_strings c.Command) c.Cpu (decode_uint 64 _ _ hcpu)
    c.Memory (decode_uint 64 _ _ hmem) _ (decode_strings c.Links)
    _ (decode_volumesFrom c.VolumesFrom) c.Ports (decode_ports_valid c.Ports hports tp)
    c.Essential rfl ep hep
    _ (decode_environment c.Environment henv te)
    c.Overrides (decode_overrides c.Overrides hc tc) d2 hd2 k2 hk2 a2 ha2 none rfl s2 hs2
    c.KnownExitCode (decode_exitCode _ _ hexit)
    _ (decode_ports c.KnownPortBindings hkports) Container.zero.StatusLock rfl
  exact ⟨_, hdec, rfl, rfl, rfl, sameMap_sorted c.Environment, rfl⟩

theorem sample_codecs_agree : statusCodecsAgree sampleMarshalers sampleUnmarshalers := by
  intro s cur j hr h
  have hj : Json.num s = j := by
    have h2 : sampleMarshalers.containerStatus s = .ok (Json.num s) := rfl
    rw [h2] at h
    injection h
  subst hj
  refine ⟨s, ?_⟩
  show decodeInt 32 cur (.num s) = .ok s
  have hr2 : -(2 ^ (32 - 1)) ≤ s ∧ s < 2 ^ (32 - 1) := hr
  simp only [decodeInt, hr2, and_self, if_true]

theorem webContainer_textValid : webContainer.textValid := by
  refine ⟨by decide, by decide, by decide, ?_, ?_⟩
  · intro kvs h
    have h2 : webContainer.Environment = some [("MODE", "prod")] := rfl
    rw [h2] at h
    injection h with h
    subst h
    decide
  · intro s h
    have h2 : webContainer.Overrides.Command = some (some ["nginx", "-g"]) := rfl
    rw [h2] at h
    injection h with h
    subst h
    decide

theorem webContainer_wellTyped : webContainer.wellTyped := by
  refine ⟨by decide, by decide, by decide, by decide, ?_, ?_, by decide, by decide, by decide,
    by decide⟩
  · intro code h
    cases h
  · intro kvs h
    have : kvs = [("MODE", "prod")] := by
      have h2 : webContainer.Environment = some [("MODE", "prod")] := rfl
      rw [h2] at h
      injection h with h
      exact h.symm
    subst this
    decide

/-- C11, amended, at the container `webContainer`. -/
theorem C11_round_trip_witness :
    ∃ j, Container.MarshalJSON sampleMarshalers webContainer = .ok j ∧
      ∃ c2, Container.UnmarshalJSON sampleUnmarshalers j = .ok c2 ∧ c2.Name = "web" ∧
        c2.Image = "nginx" ∧ c2.Ports = webContainer.Ports ∧
        sameMap c2.Environment webContainer.Environment ∧
        c2.Overrides.Command = some (some ["nginx", "-g"]) :=
  ⟨_, rfl, C11_round_trip sampleMarshalers sampleUnmarshalers webContainer _ rfl
    sample_codecs_agree webContainer_wellTyped rfl (by decide) webContainer_textValid⟩

end api

